import Mathlib

/-!
Verification of the caseflow batch import reconciliation engine
(`src/backend/src/controllers/cases.js`) against its specification.

The JavaScript handler is shallowly embedded: each helper function of the
source becomes a Lean function of the same name, the Prisma-backed storage
becomes an explicit `Store` record threaded through the processing loop,
and ambient inputs of the handler (the run timestamp `new Date()`, the
authenticated user, per-row database failures, and the random collision
suffix `Math.random().toString(36)`) become fields of an `Env` record.

Modelling conventions, noted where they matter:
* JavaScript numbers are modelled as `Int`.  The claims under study only
  exercise integer-valued inputs; a non-integer numeric literal string is
  modelled as unparseable (both the real code and the model classify such
  a row's priority the same way through the schema, as a type failure).
* JavaScript strings-or-absent fields are `Option String`, with `none`
  covering both `undefined` and `null` (the zod schema treats the two
  identically via `.optional().nullable()`).
* Library-generated validation message TEXT (zod's "Required" etc.) is
  approximated; every message produced by the repository's own code (the
  duplicate warning, the `Original case_id: ...` diagnostic, the fallback
  key format) is reproduced verbatim.
-/

namespace Caseflow

/-- Digit run to its numeric value (helper for the JS `Number` model). -/
def digitsVal (l : List Char) : Nat :=
  l.foldl (fun a c => a * 10 + (c.toNat - 48)) 0

/-- `String.trim` / JS `s.trim()`: strip whitespace from both ends
(defined over the character list so that it evaluates by reduction). -/
def jsTrim (s : String) : String :=
  ⟨((s.data.dropWhile Char.isWhitespace).reverse.dropWhile Char.isWhitespace).reverse⟩

/-- `String.toUpper` / JS `s.toUpperCase()` on the ASCII inputs the code
compares against. -/
def jsToUpper (s : String) : String :=
  ⟨s.data.map Char.toUpper⟩

/-- Models the JavaScript `Number(s)` conversion on the string inputs the
claims exercise: surrounding whitespace is ignored, the empty/whitespace
string converts to `0`, an optionally signed digit string converts to the
corresponding integer, and anything else (including non-integer literals)
is modelled as `NaN` (`none`). -/
def jsNumber (s : String) : Option Int :=
  let t := jsTrim s
  if t = "" then some 0
  else
    let p : Int × List Char :=
      match t.data with
      | '-' :: rest => (-1, rest)
      | '+' :: rest => (1, rest)
      | l => (1, l)
    if p.2.isEmpty then none
    else if p.2.all Char.isDigit then some (p.1 * (digitsVal p.2 : Int))
    else none

/-- Raw priority cell value: a JS number or a JS string. -/
inductive PrioIn where
  | pnum (n : Int)
  | pstr (s : String)
deriving DecidableEq, Repr

/-- `parsePriorityValue` from cases.js lines 9-22: coerce a priority value
to an integer or null.  `none` input covers `null`/`undefined`. -/
def parsePriorityValue : Option PrioIn → Option Int
  | none => none
  | some (.pnum n) => some n
  | some (.pstr v) =>
    let s := jsTrim v
    if s = "" then none
    else
      match jsNumber s with
      | some n => some n
      | none =>
        let up := jsToUpper s
        if up = "HIGH" then some 3
        else if up = "MEDIUM" then some 2
        else if up = "LOW" then some 1
        else none

/-- The zod `priority` field of `caseSchema` (lines 58-62): preprocess maps
`null`/`undefined`/`''` to null and numeric strings to numbers, then
`z.number().int().optional().nullable()` accepts a number and rejects a
string that did not convert. -/
def schemaPriority : Option PrioIn → Except String (Option Int)
  | none => .ok none
  | some (.pnum n) => .ok (some n)
  | some (.pstr v) =>
    if v = "" then .ok none
    else
      match jsNumber v with
      | some n => .ok (some n)
      | none => .error "Expected number, received string"

/-- Models zod's `z.string().email()` shape check: exactly one `@`, a
nonempty local part, a nonempty domain containing a dot, and no spaces. -/
def zodEmailOk (s : String) : Bool :=
  let cs := s.data
  if (cs.filter (· = '@')).length ≠ 1 then false
  else
    let before := cs.takeWhile (· ≠ '@')
    let after := (cs.dropWhile (· ≠ '@')).drop 1
    !before.isEmpty && !after.isEmpty && after.contains '.' && !cs.contains ' '

/-- Models `new Date(s)` validity on the ISO `YYYY-MM-DD` strings used by
the data source; no claim depends on which exact strings parse. -/
def jsDateValid (s : String) : Bool :=
  match s.data with
  | [y1, y2, y3, y4, '-', m1, m2, '-', d1, d2] =>
    y1.isDigit && y2.isDigit && y3.isDigit && y4.isDigit &&
    m1.isDigit && m2.isDigit && d1.isDigit && d2.isDigit
  | _ => false

/-- `safeDateFrom` from cases.js lines 24-28: falsy input or an unparsable
date becomes null (dates are carried as their validated source string). -/
def safeDateFrom : Option String → Option String
  | none => none
  | some s => if s = "" then none else if jsDateValid s then some s else none

/-- One raw row of the upload (a loose string-keyed JS object, restricted
to the fields `caseSchema` inspects; `none` covers `null`/`undefined`). -/
structure RawRow where
  case_id : Option String := none
  applicant_name : Option String := none
  dob : Option String := none
  email : Option String := none
  phone : Option String := none
  category : Option String := none
  priority : Option PrioIn := none
  status : Option String := none
deriving DecidableEq, Repr

/-- Validated row fields (`parsed.data` of a successful zod parse). -/
structure CaseFields where
  case_id : String
  applicant_name : Option String := none
  dob : Option String := none
  email : Option String := none
  phone : Option String := none
  category : Option String := none
  priority : Option Int := none
  status : Option String := none
deriving DecidableEq, Repr

/-- Email issues of a zod parse, in schema key order. -/
def emailErrs (e : Option String) : List String :=
  match e with
  | some s => if zodEmailOk s then [] else ["Invalid email"]
  | none => []

/-- Priority issues of a zod parse. -/
def prioErrs (p : Option PrioIn) : List String :=
  match schemaPriority p with
  | .error m => [m]
  | .ok _ => []

/-- `caseSchema.safeParse` (cases.js lines 51-64) with the per-field issue
messages joined by `'; '` as lines 134-141 do.  `case_id` is `z.string()`:
a missing (or null) value fails, ANY string - the empty string included -
passes; there is no trimming or nonemptiness check in the schema. -/
def caseSchemaParse (r : RawRow) : Except String CaseFields :=
  match r.case_id with
  | none =>
    .error (String.intercalate "; " (["Required"] ++ emailErrs r.email ++ prioErrs r.priority))
  | some cid =>
    match emailErrs r.email, schemaPriority r.priority with
    | [], .ok pv =>
      .ok { case_id := cid, applicant_name := r.applicant_name, dob := r.dob,
            email := r.email, phone := r.phone, category := r.category,
            priority := pv, status := r.status }
    | es, .ok _ => .error (String.intercalate "; " es)
    | es, .error m => .error (String.intercalate "; " (es ++ [m]))

/-! ### The natural-order sort of lines 83-87

`rows.slice().sort((a,b) => String(a?.case_id ?? '').localeCompare(
String(b?.case_id ?? ''), undefined, {numeric:true, sensitivity:'base'}))`.

`localeCompare` with `numeric:true, sensitivity:'base'` compares digit runs
by numeric value and letters case-insensitively.  JavaScript's sort is
stable, and any stable sort for the same total preorder produces the same
output, so a stable insertion sort is used. -/

/-- Emit a pending digit-run token. -/
def flushTok : Option Nat → List (Nat ⊕ Nat)
  | some n => [Sum.inl n]
  | none => []

/-- Base (case-insensitive) code point of a character: ASCII upper-case
letters fold onto their lower-case counterparts, everything else is its
own code point (`Char.toLower` over code points). -/
def lowerCode (c : Char) : Nat :=
  if 65 ≤ c.toNat ∧ c.toNat ≤ 90 then c.toNat + 32 else c.toNat

/-- Collation key: digit runs become their numeric value (`inl`), other
characters their case-folded code point (`inr`, base sensitivity). -/
def natKeyAux (acc : Option Nat) : List Char → List (Nat ⊕ Nat)
  | [] => flushTok acc
  | c :: rest =>
    if 48 ≤ c.toNat ∧ c.toNat ≤ 57 then
      natKeyAux (some ((acc.getD 0) * 10 + (c.toNat - 48))) rest
    else flushTok acc ++ (Sum.inr (lowerCode c) :: natKeyAux none rest)

/-- Token comparison: numeric tokens sort before letters, mirroring the
code-point order of digits before letters. -/
def cmpTok : Nat ⊕ Nat → Nat ⊕ Nat → Ordering
  | .inl a, .inl b => if a < b then .lt else if b < a then .gt else .eq
  | .inl _, .inr _ => .lt
  | .inr _, .inl _ => .gt
  | .inr a, .inr b => if a < b then .lt else if b < a then .gt else .eq

/-- Lexicographic comparison of collation keys. -/
def keyCmp : List (Nat ⊕ Nat) → List (Nat ⊕ Nat) → Ordering
  | [], [] => .eq
  | [], _ :: _ => .lt
  | _ :: _, [] => .gt
  | x :: xs, y :: ys =>
    match cmpTok x y with
    | .eq => keyCmp xs ys
    | o => o

/-- The `localeCompare(..., {numeric:true, sensitivity:'base'})` model. -/
def natCmp (a b : String) : Ordering :=
  keyCmp (natKeyAux none a.data) (natKeyAux none b.data)

/-- Sort key of a row: `String(a?.case_id ?? '')`. -/
def sortKeyOf (r : RawRow) : String := r.case_id.getD ""

/-- Comparator as a non-strict order: `a` may stay before `b`. -/
def rowLe (a b : RawRow) : Bool :=
  match natCmp (sortKeyOf a) (sortKeyOf b) with
  | .gt => false
  | _ => true

/-- Stable insertion of a row coming EARLIER in the input than the already
sorted tail: it goes before the first element it is ≤ to. -/
def insRow (x : RawRow) : List RawRow → List RawRow
  | [] => [x]
  | y :: ys => if rowLe x y then x :: y :: ys else y :: insRow x ys

/-- The stable sort of lines 83-87. -/
def sortRows : List RawRow → List RawRow
  | [] => []
  | x :: xs => insRow x (sortRows xs)

theorem insRow_length (x : RawRow) (l : List RawRow) :
    (insRow x l).length = l.length + 1 := by
  induction l with
  | nil => rfl
  | cons y ys ih =>
    simp only [insRow]
    split
    · simp
    · simp [ih]

theorem sortRows_length (l : List RawRow) : (sortRows l).length = l.length := by
  induction l with
  | nil => rfl
  | cons x xs ih => simp [sortRows, insRow_length, ih]

/-! ### The persistent store

One record type per Prisma model touched by the handler (cases, notes
and import logs).  Internal ids (cuid strings in the database) are modelled as
naturals drawn from a per-store counter; timestamps as naturals
(milliseconds, `Date.getTime()`). -/

/-- A row of the `cases` table. -/
structure CaseRec where
  id : Nat
  case_id : String
  applicant_name : Option String := none
  dob : Option String := none
  email : Option String := none
  phone : Option String := none
  category : Option String := none
  priority : Option Int := none
  status : String
  importedById : Option String := none
  importedAt : Option Nat := none
  errorMessage : Option String := none
deriving DecidableEq, Repr

/-- A row of the `notes` table. -/
structure Note where
  id : Nat
  caseId : Nat
  content : String
  authorId : Option String := none
deriving DecidableEq, Repr

/-- A row of the `import_logs` table. -/
structure ImportLog where
  id : Nat
  userId : String
  totalRows : Nat
  successCount : Nat
  failCount : Nat
  createdAt : Nat
deriving DecidableEq, Repr

/-- The relational store (the Prisma client's view of the database). -/
structure Store where
  cases : List CaseRec := []
  notes : List Note := []
  importLogs : List ImportLog := []
  nextId : Nat := 0
deriving DecidableEq, Repr

/-- Ambient inputs of one `/batch` request: the shared run timestamp
(`new Date()` of line 108), the authenticated caller (`req.user?.userId`),
an oracle giving the database error (if any) thrown by the upsert of the
row at a given processing index (line 218's `catch`), and the random
suffix `Math.random().toString(36).slice(2,8)` used on a fallback-key
collision for a given row index. -/
structure Env where
  importTimestamp : Nat
  userId : Option String := none
  upsertErr : Nat → Option String := fun _ => none
  randSuffix : Nat → String := fun _ => "r4nd0m"

/-- One entry of the `errors` report array. -/
structure ErrEntry where
  index : Nat
  case_id : Option String
  error : String
deriving DecidableEq, Repr

/-- The non-fatal message pushed for a skipped earlier duplicate
(line 122). -/
def dupMsg : String := "Duplicate case_id in file — later row will be used"

/-- Run accumulator: counters, error list, and `duplicatesMap` (a JS
object iterated in key insertion order, hence an association list). -/
structure Acc where
  successCount : Nat := 0
  failCount : Nat := 0
  errors : List ErrEntry := []
  dups : List (String × Nat) := []
deriving DecidableEq, Repr

/-- `duplicatesMap[cid] = (duplicatesMap[cid] || 0) + 1` (line 124). -/
def bumpDup : List (String × Nat) → String → List (String × Nat)
  | [], k => [(k, 1)]
  | (k', n) :: rest, k =>
    if k' = k then (k', n + 1) :: rest else (k', n) :: bumpDup rest k

/-- `row?.case_id ? String(row.case_id) : undefined` (line 118): the key
is absent when the field is missing or the empty string (JS truthiness). -/
def rowKey (r : RawRow) : Option String :=
  match r.case_id with
  | some s => if s = "" then none else some s
  | none => none

/-- `lastIndexForCase` of lines 96-100: the index of the last row (in
processing order, counting from `i`) whose truthy key equals `k`. -/
def lastIdxFrom (i : Nat) (k : String) : List RawRow → Option Nat
  | [] => none
  | r :: rest =>
    match lastIdxFrom (i + 1) k rest with
    | some j => some j
    | none => if rowKey r = some k then some i else none

/-- `lastIndexForCase[k]` over the whole sorted row list. -/
def lastIdxOf (rows : List RawRow) (k : String) : Option Nat :=
  lastIdxFrom 0 k rows

/-- Suffix of the synthetic fallback key after `FAILED-`. -/
def fallbackRest (ts j : Nat) : String :=
  toString ts ++ "-" ++ toString (j / 100) ++ "-" ++ toString (j % 100)

/-- The synthetic fallback key `FAILED-<timestamp>-<batch>-<offset>` of
lines 146/225 (the row at flat index `j` sits in chunk `j / 100` at
offset `j % 100`, the chunking of line 105 having size 100). -/
def fallbackId (ts j : Nat) : String :=
  "FAILED-" ++ fallbackRest ts j

/-- `x ? String(x).trim() : null`: the truthy-trim applied to the string
fields of a fallback FAILED record (lines 151-155 and 229-233). -/
def truthyTrim : Option String → Option String
  | some s => if s = "" then none else some (jsTrim s)
  | none => none

/-- `prisma.case.create` under the `case_id` unique constraint with the
one-retry-with-random-suffix logic of lines 163-169 (and 241-246): on a
key conflict the suffixed key is tried once; a second conflict is caught
by the outer `catch` and nothing is persisted. -/
def createFailedCase (env : Env) (j : Nat) (st : Store)
    (mk : String → Nat → CaseRec) : Store :=
  if st.cases.any (fun c => c.case_id = fallbackId env.importTimestamp j) then
    if st.cases.any (fun c =>
        c.case_id = fallbackId env.importTimestamp j ++ "-" ++ env.randSuffix j) then st
    else { st with
           cases := st.cases ++
             [mk (fallbackId env.importTimestamp j ++ "-" ++ env.randSuffix j) st.nextId],
           nextId := st.nextId + 1 }
  else { st with
         cases := st.cases ++ [mk (fallbackId env.importTimestamp j) st.nextId],
         nextId := st.nextId + 1 }

/-- The FAILED record built for a validation failure (lines 148-162):
fields come from the RAW row under truthy-trims, the original key is kept
only inside `errorMessage` (truthy, so an empty-string key prints
`<none>`). -/
def mkValidationFailRec (env : Env) (r : RawRow) (msg : String)
    (key : String) (id : Nat) : CaseRec :=
  { id := id
    case_id := key
    applicant_name := truthyTrim r.applicant_name
    dob := safeDateFrom r.dob
    email := truthyTrim r.email
    phone := truthyTrim r.phone
    category := truthyTrim r.category
    priority := parsePriorityValue r.priority
    status := "FAILED"
    importedById := env.userId
    importedAt := some env.importTimestamp
    errorMessage := some ("Original case_id: " ++
      (match rowKey r with | some k => k | none => "<none>") ++ " — " ++ msg) }

/-- The FAILED record built after a database error on the upsert
(lines 226-240): fields come from the PARSED data (`data.case_id ?? null`
does not catch the empty string, so the key is embedded verbatim). -/
def mkDbFailRec (env : Env) (d : CaseFields) (msg : String)
    (key : String) (id : Nat) : CaseRec :=
  { id := id
    case_id := key
    applicant_name := truthyTrim d.applicant_name
    dob := safeDateFrom d.dob
    email := truthyTrim d.email
    phone := truthyTrim d.phone
    category := truthyTrim d.category
    priority := d.priority
    status := "FAILED"
    importedById := env.userId
    importedAt := some env.importTimestamp
    errorMessage := some ("Original case_id: " ++ d.case_id ++ " — " ++ msg) }

/-- Update the first (under the unique constraint: the only) record whose
business key is `k`. -/
def updateWhere (cs : List CaseRec) (k : String) (f : CaseRec → CaseRec) :
    List CaseRec :=
  match cs with
  | [] => []
  | c :: rest => if c.case_id = k then f c :: rest else c :: updateWhere rest k f

/-- The `update` branch of the upsert (lines 190-202): overwrite the
descriptive fields, reset `status` (the row's declared status or
COMPLETED), restamp the importer and timestamp, clear `errorMessage`. -/
def applyUpd (env : Env) (d : CaseFields) (c : CaseRec) : CaseRec :=
  { c with
    applicant_name := d.applicant_name
    dob := safeDateFrom d.dob
    email := d.email
    phone := d.phone
    category := d.category
    priority := d.priority
    status := d.status.getD "COMPLETED"
    importedById := env.userId
    importedAt := some env.importTimestamp
    errorMessage := none }

/-- The `create` branch of the upsert (lines 203-215). -/
def mkCreate (env : Env) (d : CaseFields) (id : Nat) : CaseRec :=
  { id := id
    case_id := d.case_id
    applicant_name := d.applicant_name
    dob := safeDateFrom d.dob
    email := d.email
    phone := d.phone
    category := d.category
    priority := d.priority
    status := d.status.getD "COMPLETED"
    importedById := env.userId
    importedAt := some env.importTimestamp
    errorMessage := none }

/-- `prisma.case.upsert({ where: { case_id } ... })` (lines 188-216). -/
def upsertByKey (env : Env) (d : CaseFields) (st : Store) : Store :=
  if st.cases.any (fun c => c.case_id = d.case_id) then
    { st with cases := updateWhere st.cases d.case_id (applyUpd env d) }
  else
    { st with cases := st.cases ++ [mkCreate env d st.nextId],
              nextId := st.nextId + 1 }

/-- Validate-classify-persist for one non-duplicate row (lines 129-250):
a zod failure or a thrown upsert error increments `failCount`, records a
structured error and persists a fallback FAILED record; a successful
upsert increments `successCount`. -/
def reconcileRow (env : Env) (j : Nat) (r : RawRow) (st : Store) (acc : Acc) :
    Store × Acc :=
  match caseSchemaParse r with
  | .error msg =>
    (createFailedCase env j st (mkValidationFailRec env r msg),
     { acc with failCount := acc.failCount + 1,
                errors := acc.errors ++ [⟨j, r.case_id, msg⟩] })
  | .ok d =>
    match env.upsertErr j with
    | none =>
      (upsertByKey env d st, { acc with successCount := acc.successCount + 1 })
    | some msg =>
      (createFailedCase env j st (mkDbFailRec env d msg),
       { acc with failCount := acc.failCount + 1,
                  errors := acc.errors ++ [⟨j, some d.case_id, msg⟩] })

/-- One iteration of the per-row loop (lines 114-251): the duplicate skip
of lines 121-127 (non-fatal warning, bump of `duplicatesMap`, nothing
persisted), then validate-classify-persist. -/
def stepRow (env : Env) (lastIdx : String → Option Nat) (j : Nat) (r : RawRow)
    (st : Store) (acc : Acc) : Store × Acc :=
  match rowKey r with
  | some k =>
    if lastIdx k ≠ some j then
      (st, { acc with errors := acc.errors ++ [⟨j, some k, dupMsg⟩],
                      dups := bumpDup acc.dups k })
    else reconcileRow env j r st acc
  | none => reconcileRow env j r st acc

/-- The whole row loop from flat index `j` on.  The source iterates chunk
by chunk (`rowIndex = ci * 100 + i`), which flattens to this single
sequential walk. -/
def processFrom (env : Env) (lastIdx : String → Option Nat) (j : Nat)
    (rows : List RawRow) (st : Store) (acc : Acc) : Store × Acc :=
  match rows with
  | [] => (st, acc)
  | r :: rest =>
    let p := stepRow env lastIdx j r st acc
    processFrom env lastIdx (j + 1) rest p.1 p.2

/-- The audit note persisted on a case that had skipped duplicates
(line 262). -/
def dupNoteContent (n : Nat) : String :=
  "Duplicate rows in import: " ++ toString n ++ " earlier occurrence(s) ignored"

/-- The post-pass of lines 256-274: for every key in `duplicatesMap` (in
insertion order) look the canonical case up and, when found, attach the
audit note; a missing case silently attaches nothing. -/
def addDupNotes (env : Env) (st : Store) : List (String × Nat) → Store
  | [] => st
  | (k, n) :: rest =>
    let st' :=
      match st.cases.find? (fun c => c.case_id = k) with
      | some c =>
        { st with notes := st.notes ++ [⟨st.nextId, c.id, dupNoteContent n, env.userId⟩],
                  nextId := st.nextId + 1 }
      | none => st
    addDupNotes env st' rest

/-- Finalization (lines 276-296): one ImportLog with the aggregate counts
and the shared timestamp, created only when an authenticated user id is
available; otherwise creation is skipped. -/
def finalize (env : Env) (totalRows : Nat) (acc : Acc) (st : Store) :
    Store × Option Nat :=
  match env.userId with
  | some uid =>
    let log : ImportLog :=
      ⟨st.nextId, uid, totalRows, acc.successCount, acc.failCount,
        env.importTimestamp⟩
    ({ st with importLogs := st.importLogs ++ [log],
               nextId := st.nextId + 1 }, some st.nextId)
  | none => (st, none)

/-- The report object returned by `POST /api/cases/batch` (line 298). -/
structure Report where
  totalRows : Nat
  successCount : Nat
  failCount : Nat
  errors : List ErrEntry
  importLogId : Option Nat
deriving DecidableEq, Repr

/-- Sort + row loop of a run (everything before the note post-pass). -/
def runCore (env : Env) (raw : List RawRow) (st : Store) : Store × Acc :=
  processFrom env (lastIdxOf (sortRows raw)) 0 (sortRows raw) st {}

/-- The `POST /api/cases/batch` handler (lines 75-304) on an
already-parsed row list: sort, resolve duplicates, reconcile every row,
attach duplicate audit notes, write the import log, return the report. -/
def runBatch (env : Env) (raw : List RawRow) (st : Store) : Store × Report :=
  let p := runCore env raw st
  let st2 := addDupNotes env p.1 p.2.dups
  let q := finalize env (sortRows raw).length p.2 st2
  (q.1, { totalRows := (sortRows raw).length
          successCount := p.2.successCount
          failCount := p.2.failCount
          errors := p.2.errors
          importLogId := q.2 })

/-! ### Basic frame and counting lemmas -/

/-- `createFailedCase` never touches notes, import logs, or the records
already present. -/
theorem createFailedCase_notes (env : Env) (j : Nat) (st : Store)
    (mk : String → Nat → CaseRec) :
    (createFailedCase env j st mk).notes = st.notes ∧
    (createFailedCase env j st mk).importLogs = st.importLogs := by
  unfold createFailedCase
  split <;> [skip; exact ⟨rfl, rfl⟩]
  split <;> exact ⟨rfl, rfl⟩

/-- `upsertByKey` never touches notes or import logs. -/
theorem upsertByKey_notes (env : Env) (d : CaseFields) (st : Store) :
    (upsertByKey env d st).notes = st.notes ∧
    (upsertByKey env d st).importLogs = st.importLogs := by
  unfold upsertByKey
  split <;> exact ⟨rfl, rfl⟩

/-- The row loop never touches notes or import logs. -/
theorem stepRow_notes (env : Env) (L : String → Option Nat) (j : Nat)
    (r : RawRow) (st : Store) (acc : Acc) :
    (stepRow env L j r st acc).1.notes = st.notes ∧
    (stepRow env L j r st acc).1.importLogs = st.importLogs := by
  unfold stepRow reconcileRow
  split
  · split
    · exact ⟨rfl, rfl⟩
    · split
      · exact createFailedCase_notes ..
      · split
        · exact upsertByKey_notes ..
        · exact createFailedCase_notes ..
  · split
    · exact createFailedCase_notes ..
    · split
      · exact upsertByKey_notes ..
      · exact createFailedCase_notes ..

/-- The whole row loop never touches notes or import logs. -/
theorem processFrom_notes (env : Env) (L : String → Option Nat)
    (rows : List RawRow) (j : Nat) (st : Store) (acc : Acc) :
    (processFrom env L j rows st acc).1.notes = st.notes ∧
    (processFrom env L j rows st acc).1.importLogs = st.importLogs := by
  induction rows generalizing j st acc with
  | nil => exact ⟨rfl, rfl⟩
  | cons r rest ih =>
    have hs := stepRow_notes env L j r st acc
    have := ih (j + 1) (stepRow env L j r st acc).1 (stepRow env L j r st acc).2
    simp only [processFrom]
    exact ⟨this.1.trans hs.1, this.2.trans hs.2⟩

/-- The note post-pass touches neither cases nor import logs. -/
theorem addDupNotes_cases (env : Env) (d : List (String × Nat)) (st : Store) :
    (addDupNotes env st d).cases = st.cases ∧
    (addDupNotes env st d).importLogs = st.importLogs := by
  induction d generalizing st with
  | nil => exact ⟨rfl, rfl⟩
  | cons p rest ih =>
    simp only [addDupNotes]
    split
    · exact ⟨(ih _).1, (ih _).2⟩
    · exact ⟨(ih _).1, (ih _).2⟩

/-- Notes already present survive the note post-pass. -/
theorem addDupNotes_mem (env : Env) (d : List (String × Nat)) (st : Store)
    (n : Note) (h : n ∈ st.notes) : n ∈ (addDupNotes env st d).notes := by
  induction d generalizing st with
  | nil => exact h
  | cons p rest ih =>
    simp only [addDupNotes]
    split
    · exact ih _ (by simp [h])
    · exact ih _ h

/-! ### C6: priority coercion -/

/-- C6 counterexample: the claim says out-of-range integers coerce to
null, but `parsePriorityValue` returns any number unchanged (`7 ↦ 7`,
not null); and the claim allows only non-numeric, NON-LABEL strings to
fail schema validation, but the schema has no label handling at all, so
the label `"HIGH"` also fails it. -/
theorem c6_counterexample :
    parsePriorityValue (some (.pnum 7)) = some 7 ∧
    parsePriorityValue (some (.pnum 7)) ≠ none ∧
    schemaPriority (some (.pstr "HIGH")) =
      Except.error "Expected number, received string" := by
  refine ⟨rfl, by decide, rfl⟩

/-- C6 (amended): the boundary helper `parsePriorityValue` maps the
labels HIGH/MEDIUM/LOW case-insensitively to 3/2/1 and integer or
integer-valued-string inputs to their numeric value REGARDLESS of range
(out-of-range integers are preserved, not nulled); any other input,
`"URGENT"` included, maps to null.  Schema-level validation fails every
non-numeric string, labels included, and passes numeric input through. -/
theorem c6_priority_coercion :
    parsePriorityValue (some (.pstr "HIGH")) = some 3 ∧
    parsePriorityValue (some (.pstr "high")) = some 3 ∧
    parsePriorityValue (some (.pnum 3)) = some 3 ∧
    parsePriorityValue (some (.pstr "3")) = some 3 ∧
    parsePriorityValue (some (.pstr "MEDIUM")) = some 2 ∧
    parsePriorityValue (some (.pstr "Low")) = some 1 ∧
    parsePriorityValue (some (.pstr "URGENT")) = none ∧
    (∀ n : Int, parsePriorityValue (some (.pnum n)) = some n) ∧
    schemaPriority (some (.pstr "URGENT")) =
      Except.error "Expected number, received string" ∧
    schemaPriority (some (.pstr "3")) = Except.ok (some 3) ∧
    schemaPriority (some (.pnum 7)) = Except.ok (some 7) := by
  refine ⟨by decide, by decide, rfl, by decide, by decide, by decide,
    by decide, fun n => rfl, rfl, rfl, rfl⟩

/-! ### C7: caseKey validation -/

/-- C7 counterexample: the schema's `case_id` field is a bare
`z.string()` with no trim or nonemptiness check, so a row whose key is
the EMPTY string passes validation and is upserted as a successful
COMPLETED case - the claim's Invalid/VALIDATION_FAILED classification of
empty keys does not happen. -/
theorem c7_counterexample :
    caseSchemaParse { case_id := some "" } =
      Except.ok ({ case_id := "" } : CaseFields) ∧
    (runBatch { importTimestamp := 100, userId := some "u1" }
        [{ case_id := some "" }] {}).2.successCount = 1 ∧
    ((runBatch { importTimestamp := 100, userId := some "u1" }
        [{ case_id := some "" }] {}).1.cases.map
      (fun c => (c.case_id, c.status))) = [("", "COMPLETED")] := by
  refine ⟨rfl, by decide, by decide⟩

/-- Any record of a `createFailedCase` result was already present or
carries status FAILED. -/
theorem createFailedCase_status (env : Env) (j : Nat) (st : Store)
    (mk : String → Nat → CaseRec) (hmk : ∀ k i, (mk k i).status = "FAILED") :
    ∀ c ∈ (createFailedCase env j st mk).cases, c ∈ st.cases ∨ c.status = "FAILED" := by
  unfold createFailedCase
  split
  · split
    · exact fun c hc => Or.inl hc
    · intro c hc
      rcases List.mem_append.1 hc with h | h
      · exact Or.inl h
      · simp only [List.mem_singleton] at h
        exact Or.inr (h ▸ hmk _ _)
  · intro c hc
    rcases List.mem_append.1 hc with h | h
    · exact Or.inl h
    · simp only [List.mem_singleton] at h
      exact Or.inr (h ▸ hmk _ _)

/-- C7 (amended): only a MISSING (absent or null) `caseKey` fails
validation; such a row is classified VALIDATION_FAILED (fail counter
incremented, success counter untouched) and everything it persists is a
FAILED record, never a successful case.  (Empty or whitespace-only
string keys, by the counterexample, pass validation instead.) -/
theorem c7_missing_key_invalid (r : RawRow) (h : r.case_id = none)
    (env : Env) (L : String → Option Nat) (j : Nat) (st : Store) (acc : Acc) :
    (∃ m, caseSchemaParse r = Except.error m) ∧
    (stepRow env L j r st acc).2.successCount = acc.successCount ∧
    (stepRow env L j r st acc).2.failCount = acc.failCount + 1 ∧
    ∀ c ∈ (stepRow env L j r st acc).1.cases, c ∈ st.cases ∨ c.status = "FAILED" := by
  have hparse : caseSchemaParse r = Except.error
      (String.intercalate "; " (["Required"] ++ emailErrs r.email ++ prioErrs r.priority)) := by
    unfold caseSchemaParse
    rw [h]
  have hrk : rowKey r = none := by unfold rowKey; rw [h]
  have hstep : stepRow env L j r st acc = reconcileRow env j r st acc := by
    unfold stepRow; rw [hrk]
  have hrec : reconcileRow env j r st acc =
      (createFailedCase env j st (mkValidationFailRec env r
        (String.intercalate "; " (["Required"] ++ emailErrs r.email ++ prioErrs r.priority))),
       { acc with failCount := acc.failCount + 1,
                  errors := acc.errors ++ [⟨j, r.case_id,
                    String.intercalate "; " (["Required"] ++ emailErrs r.email ++ prioErrs r.priority)⟩] }) := by
    unfold reconcileRow
    rw [hparse]
  refine ⟨⟨_, hparse⟩, ?_, ?_, ?_⟩
  · rw [hstep, hrec]
  · rw [hstep, hrec]
  · rw [hstep, hrec]
    exact createFailedCase_status env j st _ (fun k i => rfl)

/-- Witness for the C7 amended theorem at a concrete key-less row. -/
theorem c7_missing_key_invalid_witness :
    (({} : RawRow).case_id = none) ∧
    ((∃ m, caseSchemaParse {} = Except.error m) ∧
     (stepRow { importTimestamp := 5 } (fun _ => none) 0 {} {} {}).2.successCount = 0 ∧
     (stepRow { importTimestamp := 5 } (fun _ => none) 0 {} {} {}).2.failCount = 0 + 1 ∧
     ∀ c ∈ (stepRow { importTimestamp := 5 } (fun _ => none) 0 {} {} ({} : Acc)).1.cases,
       c ∈ ({} : Store).cases ∨ c.status = "FAILED") :=
  ⟨rfl, c7_missing_key_invalid {} rfl { importTimestamp := 5 } (fun _ => none) 0 {} {}⟩

/-! ### C3: count invariant -/

/-- Total number of skipped duplicate occurrences in `duplicatesMap`. -/
def dupTotal (d : List (String × Nat)) : Nat := (d.map (·.2)).sum

theorem bumpDup_dupTotal (d : List (String × Nat)) (k : String) :
    dupTotal (bumpDup d k) = dupTotal d + 1 := by
  induction d with
  | nil => rfl
  | cons p rest ih =>
    obtain ⟨k', n⟩ := p
    simp only [bumpDup]
    split
    · simp only [dupTotal, List.map_cons, List.sum_cons] at *
      omega
    · simp only [dupTotal, List.map_cons, List.sum_cons] at ih ⊢
      omega

/-- Every row settles into exactly one of: skipped duplicate, failure,
success - so each step grows the three-way total by one. -/
theorem stepRow_count (env : Env) (L : String → Option Nat) (j : Nat)
    (r : RawRow) (st : Store) (acc : Acc) :
    (stepRow env L j r st acc).2.successCount + (stepRow env L j r st acc).2.failCount +
      dupTotal (stepRow env L j r st acc).2.dups =
    acc.successCount + acc.failCount + dupTotal acc.dups + 1 := by
  unfold stepRow reconcileRow
  split
  · split
    · dsimp only
      rw [bumpDup_dupTotal]
      omega
    · split
      · dsimp only; omega
      · split <;> (dsimp only; omega)
  · split
    · dsimp only; omega
    · split <;> (dsimp only; omega)

theorem processFrom_count (env : Env) (L : String → Option Nat)
    (rows : List RawRow) (j : Nat) (st : Store) (acc : Acc) :
    (processFrom env L j rows st acc).2.successCount +
      (processFrom env L j rows st acc).2.failCount +
      dupTotal (processFrom env L j rows st acc).2.dups =
    acc.successCount + acc.failCount + dupTotal acc.dups + rows.length := by
  induction rows generalizing j st acc with
  | nil => simp [processFrom]
  | cons r rest ih =>
    simp only [processFrom]
    rw [ih (j + 1) (stepRow env L j r st acc).1 (stepRow env L j r st acc).2,
      stepRow_count env L j r st acc]
    simp only [List.length_cons]
    omega

/-- The three-way total over a whole run is the (sorted, hence input)
row count. -/
theorem runCore_count (env : Env) (raw : List RawRow) (st : Store) :
    (runCore env raw st).2.successCount + (runCore env raw st).2.failCount +
      dupTotal (runCore env raw st).2.dups = raw.length := by
  have hcore : runCore env raw st =
      processFrom env (lastIdxOf (sortRows raw)) 0 (sortRows raw) st
        ⟨0, 0, [], []⟩ := rfl
  have hc := processFrom_count env (lastIdxOf (sortRows raw)) (sortRows raw) 0 st
    ⟨0, 0, [], []⟩
  rw [← hcore] at hc
  dsimp only at hc
  rw [sortRows_length raw] at hc
  have hz : dupTotal ([] : List (String × Nat)) = 0 := rfl
  omega

/-- C3 (confirmed): the report counts `totalRows` as exactly the input
length; each non-duplicate row contributes to exactly one of
`successCount`/`failCount` and each in-file-duplicate skip contributes to
neither while staying inside `totalRows`, so
`successCount + failCount + #skipped = totalRows` and in particular
`successCount + failCount ≤ totalRows`. -/
theorem c3_count_invariant (env : Env) (raw : List RawRow) (st : Store) :
    (runBatch env raw st).2.totalRows = raw.length ∧
    (runBatch env raw st).2.successCount + (runBatch env raw st).2.failCount +
      dupTotal (runCore env raw st).2.dups = (runBatch env raw st).2.totalRows ∧
    (runBatch env raw st).2.successCount + (runBatch env raw st).2.failCount ≤
      (runBatch env raw st).2.totalRows := by
  have h1 : (runBatch env raw st).2.totalRows = (sortRows raw).length := rfl
  have h2 : (runBatch env raw st).2.successCount = (runCore env raw st).2.successCount := rfl
  have h3 : (runBatch env raw st).2.failCount = (runCore env raw st).2.failCount := rfl
  have hc := runCore_count env raw st
  refine ⟨h1.trans (sortRows_length raw), ?_, ?_⟩ <;>
    rw [h1, sortRows_length raw, h2, h3] <;> omega

/-! ### C8: import log finalization -/

/-- C8 (confirmed): with an authenticated caller exactly one ImportLog is
appended, carrying the report's `totalRows`/`successCount`/`failCount`
and the run's shared timestamp as `createdAt`; without one, the logs are
untouched, `importLogId` is null, and the full report (row count and
error list) is still produced. -/
theorem c8_import_log (env : Env) (raw : List RawRow) (st : Store) :
    (∀ uid, env.userId = some uid →
      ∃ i, (runBatch env raw st).1.importLogs = st.importLogs ++
        [⟨i, uid, (runBatch env raw st).2.totalRows,
          (runBatch env raw st).2.successCount,
          (runBatch env raw st).2.failCount, env.importTimestamp⟩]) ∧
    (env.userId = none →
      (runBatch env raw st).1.importLogs = st.importLogs ∧
      (runBatch env raw st).2.importLogId = none ∧
      (runBatch env raw st).2.totalRows = raw.length ∧
      (runBatch env raw st).2.errors = (runCore env raw st).2.errors) := by
  have hlogs : (addDupNotes env (runCore env raw st).1
      (runCore env raw st).2.dups).importLogs = st.importLogs := by
    rw [(addDupNotes_cases env (runCore env raw st).2.dups (runCore env raw st).1).2]
    exact (processFrom_notes env (lastIdxOf (sortRows raw)) (sortRows raw) 0 st {}).2
  have hfst : (runBatch env raw st).1 =
      (finalize env (sortRows raw).length (runCore env raw st).2
        (addDupNotes env (runCore env raw st).1 (runCore env raw st).2.dups)).1 := rfl
  have hid : (runBatch env raw st).2.importLogId =
      (finalize env (sortRows raw).length (runCore env raw st).2
        (addDupNotes env (runCore env raw st).1 (runCore env raw st).2.dups)).2 := rfl
  constructor
  · intro uid huid
    refine ⟨(addDupNotes env (runCore env raw st).1 (runCore env raw st).2.dups).nextId, ?_⟩
    rw [hfst]
    unfold finalize
    rw [huid]
    simp only
    rw [hlogs]
    rfl
  · intro hnone
    refine ⟨?_, ?_, sortRows_length raw, rfl⟩
    · rw [hfst]
      unfold finalize
      rw [hnone]
      exact hlogs
    · rw [hid]
      unfold finalize
      rw [hnone]

/-- Witness for C8 at a run with an authenticated caller. -/
theorem c8_import_log_witness :
    (({ importTimestamp := 7, userId := some "u9" } : Env).userId = some "u9") ∧
    ∃ i, (runBatch { importTimestamp := 7, userId := some "u9" } [] {}).1.importLogs =
      ({} : Store).importLogs ++
        [⟨i, "u9", (runBatch { importTimestamp := 7, userId := some "u9" } [] {}).2.totalRows,
          (runBatch { importTimestamp := 7, userId := some "u9" } [] {}).2.successCount,
          (runBatch { importTimestamp := 7, userId := some "u9" } [] {}).2.failCount, 7⟩] :=
  ⟨rfl, (c8_import_log { importTimestamp := 7, userId := some "u9" } [] {}).1 "u9" rfl⟩

/-! ### C1: fallback keys for failed rows -/

/-- The condition under which the engine shunts a row to the FAILED
persistence path: zod validation failed, or the upsert threw. -/
def rowReconFails (env : Env) (j : Nat) (r : RawRow) : Bool :=
  match caseSchemaParse r with
  | .error _ => true
  | .ok _ => (env.upsertErr j).isSome

/-- A successful parse passes the raw `case_id` through. -/
theorem caseSchemaParse_ok_caseId (r : RawRow) (d : CaseFields)
    (h : caseSchemaParse r = Except.ok d) : r.case_id = some d.case_id := by
  cases hc : r.case_id with
  | none =>
    simp only [caseSchemaParse, hc] at h
    cases h
  | some cid =>
    simp only [caseSchemaParse, hc] at h
    revert h
    split
    · intro h
      injection h with h2
      rw [← h2]
    · intro h
      cases h
    · intro h
      cases h

theorem str_nil_append (s : String) : "" ++ s = s := by
  apply String.ext
  rw [String.data_append]
  rfl

theorem strAppend_assoc (a b c : String) : a ++ b ++ c = a ++ (b ++ c) := by
  apply String.ext
  simp only [String.data_append, List.append_assoc]

/-- Both shapes of synthetic key start with the 7 characters `FAILED-`. -/
theorem fb_take7 (s : String) : ("FAILED-" ++ s).data.take 7 = "FAILED-".data := by
  rw [String.data_append]
  have h7 : "FAILED-".data.length = 7 := rfl
  rw [← h7]
  exact List.take_left _ _

/-- A key that does not itself start with `FAILED-` never equals a
synthetic key. -/
theorem fb_ne (s k : String) (h : k.data.take 7 ≠ "FAILED-".data) :
    ¬ ("FAILED-" ++ s = k) := fun he => h (by rw [← he]; exact fb_take7 s)

/-- C1 (amended): a row that fails validation or persistence is counted
failed and - whenever a record for it is persisted at all - that record
is keyed `FAILED-<timestamp>-<batch>-<offset>` or its random-suffixed
variant, its status is FAILED, its `errorMessage` embeds the row's
original `caseKey` as a literal substring, and its key differs from the
original `caseKey` PROVIDED the original key does not itself start with
`FAILED-` (the counterexample shows a row whose own key is exactly the
synthetic string is persisted under its original key). -/
theorem c1_fallback_key (env : Env) (j : Nat) (r : RawRow) (st : Store) (acc : Acc)
    (hfail : rowReconFails env j r = true) :
    (reconcileRow env j r st acc).2.failCount = acc.failCount + 1 ∧
    ((reconcileRow env j r st acc).1.cases = st.cases ∨
      ∃ c, (reconcileRow env j r st acc).1.cases = st.cases ++ [c] ∧
        (c.case_id = fallbackId env.importTimestamp j ∨
          c.case_id = fallbackId env.importTimestamp j ++ "-" ++ env.randSuffix j) ∧
        c.status = "FAILED" ∧
        ∀ k, r.case_id = some k →
          (∃ pre post, c.errorMessage = some (pre ++ (k ++ post))) ∧
          (k.data.take 7 ≠ "FAILED-".data → c.case_id ≠ k)) := by
  unfold rowReconFails at hfail
  cases hp : caseSchemaParse r with
  | error msg =>
    constructor
    · simp only [reconcileRow, hp]
    · simp only [reconcileRow, hp]
      unfold createFailedCase
      split
      · split
        · exact Or.inl rfl
        · refine Or.inr ⟨_, rfl, Or.inr rfl, rfl, ?_⟩
          intro k hk
          constructor
          · by_cases hk0 : k = ""
            · refine ⟨"Original case_id: ", "<none>" ++ (" — " ++ msg), ?_⟩
              have hrk : rowKey r = none := by unfold rowKey; rw [hk, hk0]; simp
              simp only [mkValidationFailRec, hrk, hk0, str_nil_append]
              rw [strAppend_assoc, strAppend_assoc]
            · refine ⟨"Original case_id: ", " — " ++ msg, ?_⟩
              have hrk : rowKey r = some k := by unfold rowKey; rw [hk]; simp [hk0]
              simp only [mkValidationFailRec, hrk]
              rw [strAppend_assoc, strAppend_assoc]
          · intro h7
            show ¬ (fallbackId env.importTimestamp j ++ "-" ++ env.randSuffix j = k)
            rw [fallbackId, strAppend_assoc, strAppend_assoc]
            exact fb_ne _ k h7
      · refine Or.inr ⟨_, rfl, Or.inl rfl, rfl, ?_⟩
        intro k hk
        constructor
        · by_cases hk0 : k = ""
          · refine ⟨"Original case_id: ", "<none>" ++ (" — " ++ msg), ?_⟩
            have hrk : rowKey r = none := by unfold rowKey; rw [hk, hk0]; simp
            simp only [mkValidationFailRec, hrk, hk0, str_nil_append]
            rw [strAppend_assoc, strAppend_assoc]
          · refine ⟨"Original case_id: ", " — " ++ msg, ?_⟩
            have hrk : rowKey r = some k := by unfold rowKey; rw [hk]; simp [hk0]
            simp only [mkValidationFailRec, hrk]
            rw [strAppend_assoc, strAppend_assoc]
        · intro h7
          show ¬ (fallbackId env.importTimestamp j = k)
          rw [fallbackId]
          exact fb_ne _ k h7
  | ok d =>
    have hfail2 : (env.upsertErr j).isSome = true := by
      rw [hp] at hfail
      exact hfail
    cases he : env.upsertErr j with
    | none =>
      rw [he] at hfail2
      cases hfail2
    | some msg =>
      have hkd : r.case_id = some d.case_id := caseSchemaParse_ok_caseId r d hp
      constructor
      · simp only [reconcileRow, hp, he]
      · simp only [reconcileRow, hp, he]
        unfold createFailedCase
        split
        · split
          · exact Or.inl rfl
          · refine Or.inr ⟨_, rfl, Or.inr rfl, rfl, ?_⟩
            intro k hk
            have hkk : k = d.case_id := by rw [hkd] at hk; exact (Option.some.inj hk).symm
            refine ⟨⟨"Original case_id: ", " — " ++ msg, by
              simp only [mkDbFailRec, hkk]
              rw [strAppend_assoc, strAppend_assoc]⟩, ?_⟩
            intro h7
            show ¬ (fallbackId env.importTimestamp j ++ "-" ++ env.randSuffix j = k)
            rw [fallbackId, strAppend_assoc, strAppend_assoc]
            exact fb_ne _ k h7
        · refine Or.inr ⟨_, rfl, Or.inl rfl, rfl, ?_⟩
          intro k hk
          have hkk : k = d.case_id := by rw [hkd] at hk; exact (Option.some.inj hk).symm
          refine ⟨⟨"Original case_id: ", " — " ++ msg, by
            simp only [mkDbFailRec, hkk]
            rw [strAppend_assoc, strAppend_assoc]⟩, ?_⟩
          intro h7
          show ¬ (fallbackId env.importTimestamp j = k)
          rw [fallbackId]
          exact fb_ne _ k h7

/-- Witness for C1 (amended) at a concrete invalid-email row with key
`X`. -/
theorem c1_fallback_key_witness :
    rowReconFails { importTimestamp := 100 } 0 { case_id := some "X", email := some "bad" } = true ∧
    ((reconcileRow { importTimestamp := 100 } 0
        { case_id := some "X", email := some "bad" } {} {}).2.failCount = 0 + 1 ∧
      ((reconcileRow { importTimestamp := 100 } 0
          { case_id := some "X", email := some "bad" } {} {}).1.cases = ({} : Store).cases ∨
        ∃ c, (reconcileRow { importTimestamp := 100 } 0
            { case_id := some "X", email := some "bad" } {} {}).1.cases = ({} : Store).cases ++ [c] ∧
          (c.case_id = fallbackId 100 0 ∨
            c.case_id = fallbackId 100 0 ++ "-" ++
              ({ importTimestamp := 100 } : Env).randSuffix 0) ∧
          c.status = "FAILED" ∧
          ∀ k, ({ case_id := some "X", email := some "bad" } : RawRow).case_id = some k →
            (∃ pre post, c.errorMessage = some (pre ++ (k ++ post))) ∧
            (k.data.take 7 ≠ "FAILED-".data → c.case_id ≠ k))) :=
  ⟨rfl, c1_fallback_key { importTimestamp := 100 } 0
    { case_id := some "X", email := some "bad" } {} {} rfl⟩

/-- C1 counterexample: a failing row whose own `caseKey` is exactly the
synthetic string `FAILED-<timestamp>-0-0` of its run IS persisted under
its original `caseKey`, so "never under the row's original caseKey" does
not hold verbatim. -/
theorem c1_counterexample :
    ((runBatch { importTimestamp := 100 }
        [{ case_id := some "FAILED-100-0-0", email := some "bad" }] {}).1.cases.map
      (fun c => (c.case_id, c.status))) = [("FAILED-100-0-0", "FAILED")] ∧
    ({ case_id := some "FAILED-100-0-0", email := some "bad" } : RawRow).case_id =
      some "FAILED-100-0-0" := by
  refine ⟨by decide, rfl⟩

/-! ### Per-key store tracking

The machinery for the duplicate-resolution, idempotence and
case-sensitivity claims: how each engine operation transforms the set of
records carrying one fixed business key. -/

/-- The database's unique constraint on `cases.case_id` as a store
invariant. -/
def KeysUnique (cs : List CaseRec) : Prop :=
  cs.Pairwise (fun a b => a.case_id ≠ b.case_id)

theorem find?_filter_head (cs : List CaseRec) (p : CaseRec → Bool) :
    cs.find? p = (cs.filter p).head? := by
  induction cs with
  | nil => rfl
  | cons c rest ih =>
    by_cases hp : p c
    · simp [List.find?, List.filter, hp]
    · simp only [List.find?, List.filter]
      rw [Bool.not_eq_true] at hp
      rw [hp]
      exact ih

theorem updateWhere_map_key (cs : List CaseRec) (k : String) (f : CaseRec → CaseRec)
    (hf : ∀ c, (f c).case_id = c.case_id) :
    (updateWhere cs k f).map (fun c => c.case_id) = cs.map (fun c => c.case_id) := by
  induction cs with
  | nil => rfl
  | cons c rest ih =>
    simp only [updateWhere]
    split
    · simp [hf]
    · simp [ih]

theorem keysUnique_updateWhere (cs : List CaseRec) (k : String) (f : CaseRec → CaseRec)
    (hf : ∀ c, (f c).case_id = c.case_id) (hu : KeysUnique cs) :
    KeysUnique (updateWhere cs k f) := by
  have h1 : ((updateWhere cs k f).map (fun c => c.case_id)).Pairwise (fun a b => a ≠ b) := by
    rw [updateWhere_map_key cs k f hf]
    exact (List.pairwise_map).2 hu
  exact (List.pairwise_map).1 h1

theorem keysUnique_append_new (cs : List CaseRec) (c : CaseRec)
    (h : ∀ b ∈ cs, b.case_id ≠ c.case_id) (hu : KeysUnique cs) :
    KeysUnique (cs ++ [c]) := by
  rw [KeysUnique, List.pairwise_append]
  exact ⟨hu, List.pairwise_singleton _ _, fun a ha b hb => by
    rw [List.mem_singleton] at hb
    rw [hb]
    exact h a ha⟩

theorem any_key_false (cs : List CaseRec) (k : String)
    (h : ¬ (cs.any fun c => decide (c.case_id = k)) = true) :
    ∀ b ∈ cs, b.case_id ≠ k := by
  intro b hb
  simp only [List.any_eq_true, decide_eq_true_eq, not_exists, not_and] at h
  exact h b hb

theorem filter_key_nil (cs : List CaseRec) (k : String)
    (h : ∀ b ∈ cs, b.case_id ≠ k) :
    cs.filter (fun c => decide (c.case_id = k)) = [] := by
  induction cs with
  | nil => rfl
  | cons c rest ih =>
    simp only [List.filter]
    rw [decide_eq_false (h c (List.mem_cons_self c rest))]
    exact ih (fun b hb => h b (List.mem_cons_of_mem c hb))

/-- With the unique constraint, updating the record at key `k` rewrites
the singleton `k`-slice of the table. -/
theorem updateWhere_filter_eq (cs : List CaseRec) (k : String) (f : CaseRec → CaseRec)
    (hf : ∀ c, (f c).case_id = c.case_id) (hu : KeysUnique cs)
    (hany : (cs.any fun c => decide (c.case_id = k)) = true) :
    ∃ c0, cs.filter (fun c => decide (c.case_id = k)) = [c0] ∧ c0.case_id = k ∧
      (updateWhere cs k f).filter (fun c => decide (c.case_id = k)) = [f c0] := by
  induction cs with
  | nil => cases hany
  | cons c rest ih =>
    rw [KeysUnique, List.pairwise_cons] at hu
    by_cases hc : c.case_id = k
    · refine ⟨c, ?_, hc, ?_⟩
      · simp only [List.filter, decide_eq_true hc]
        rw [filter_key_nil rest k (fun b hb => by rw [← hc]; exact (hu.1 b hb).symm)]
      · simp only [updateWhere, if_pos hc, List.filter]
        rw [decide_eq_true ((hf c).trans hc)]
        rw [filter_key_nil rest k (fun b hb => by rw [← hc]; exact (hu.1 b hb).symm)]
    · simp only [List.any_cons, Bool.or_eq_true, decide_eq_true_eq] at hany
      rcases hany with h | h
      · exact absurd h hc
      · obtain ⟨c0, h1, h2, h3⟩ := ih hu.2 (by rw [List.any_eq_true]; simpa using h)
        refine ⟨c0, ?_, h2, ?_⟩
        · simp only [List.filter, decide_eq_false hc]
          exact h1
        · simp only [updateWhere, if_neg hc, List.filter, decide_eq_false hc]
          exact h3

/-- Updating at a different key leaves the `k`-slice alone. -/
theorem updateWhere_filter_ne (cs : List CaseRec) (k k' : String) (f : CaseRec → CaseRec)
    (hf : ∀ c, (f c).case_id = c.case_id) (hne : k ≠ k') :
    (updateWhere cs k' f).filter (fun c => decide (c.case_id = k)) =
      cs.filter (fun c => decide (c.case_id = k)) := by
  induction cs with
  | nil => rfl
  | cons c rest ih =>
    simp only [updateWhere]
    split
    · rename_i hck
      have hnk : ¬ c.case_id = k := by rw [hck]; exact fun h => hne h.symm
      simp only [List.filter, hf, decide_eq_false hnk]
    · simp only [List.filter]
      rw [ih]

/-- The upsert's effect on its own key-slice: afterwards exactly one
record holds the key, and its fields are the parsed row's. -/
theorem upsertByKey_casesK (env : Env) (d : CaseFields) (st : Store)
    (hu : KeysUnique st.cases) :
    ∃ c, ((upsertByKey env d st).cases.filter
        (fun c => decide (c.case_id = d.case_id))) = [c] ∧
      c.case_id = d.case_id ∧ c.applicant_name = d.applicant_name ∧
      c.dob = safeDateFrom d.dob ∧ c.email = d.email ∧ c.phone = d.phone ∧
      c.category = d.category ∧ c.priority = d.priority ∧
      c.status = d.status.getD "COMPLETED" ∧ c.importedById = env.userId ∧
      c.importedAt = some env.importTimestamp ∧ c.errorMessage = none := by
  unfold upsertByKey
  split
  · rename_i hany
    obtain ⟨c0, _, _, h3⟩ :=
      updateWhere_filter_eq st.cases d.case_id (applyUpd env d) (fun c => rfl) hu hany
    exact ⟨applyUpd env d c0, h3, by simp [applyUpd, *], rfl, rfl, rfl, rfl, rfl,
      rfl, rfl, rfl, rfl, rfl⟩
  · rename_i hany
    refine ⟨mkCreate env d st.nextId, ?_, rfl, rfl, rfl, rfl, rfl, rfl, rfl, rfl,
      rfl, rfl, rfl⟩
    simp only [List.filter_append]
    rw [filter_key_nil st.cases d.case_id (any_key_false st.cases d.case_id hany)]
    simp [mkCreate]

/-- The upsert's effect away from its key: nothing. -/
theorem upsertByKey_casesK_ne (env : Env) (d : CaseFields) (st : Store) (k : String)
    (hne : k ≠ d.case_id) :
    (upsertByKey env d st).cases.filter (fun c => decide (c.case_id = k)) =
      st.cases.filter (fun c => decide (c.case_id = k)) := by
  unfold upsertByKey
  split
  · exact updateWhere_filter_ne st.cases k d.case_id (applyUpd env d) (fun c => rfl) hne
  · simp only [List.filter_append]
    have : ¬ (mkCreate env d st.nextId).case_id = k := fun h => hne (h.symm)
    simp [List.filter, decide_eq_false this]

theorem upsertByKey_keysUnique (env : Env) (d : CaseFields) (st : Store)
    (hu : KeysUnique st.cases) : KeysUnique (upsertByKey env d st).cases := by
  unfold upsertByKey
  split
  · exact keysUnique_updateWhere st.cases d.case_id (applyUpd env d) (fun c => rfl) hu
  · rename_i hany
    exact keysUnique_append_new st.cases _ (any_key_false st.cases d.case_id hany) hu

/-- Fallback persistence only ever inserts keys of the `FAILED-` shape,
so for a business key not of that shape the `k`-slice is untouched. -/
theorem createFailedCase_casesK (env : Env) (j : Nat) (st : Store)
    (mk : String → Nat → CaseRec) (k : String)
    (hmk : ∀ key i, (mk key i).case_id = key)
    (h7 : k.data.take 7 ≠ "FAILED-".data) :
    (createFailedCase env j st mk).cases.filter (fun c => decide (c.case_id = k)) =
      st.cases.filter (fun c => decide (c.case_id = k)) := by
  have hfb : ¬ (mk (fallbackId env.importTimestamp j) st.nextId).case_id = k := by
    rw [hmk, fallbackId]
    exact fb_ne _ k h7
  have hfb2 : ¬ (mk (fallbackId env.importTimestamp j ++ "-" ++ env.randSuffix j)
      st.nextId).case_id = k := by
    rw [hmk, fallbackId, strAppend_assoc, strAppend_assoc]
    exact fb_ne _ k h7
  unfold createFailedCase
  split
  · split
    · rfl
    · simp [List.filter_append, List.filter, decide_eq_false hfb2]
  · simp [List.filter_append, List.filter, decide_eq_false hfb]

theorem createFailedCase_keysUnique (env : Env) (j : Nat) (st : Store)
    (mk : String → Nat → CaseRec) (hmk : ∀ key i, (mk key i).case_id = key)
    (hu : KeysUnique st.cases) :
    KeysUnique (createFailedCase env j st mk).cases := by
  unfold createFailedCase
  split
  · split
    · exact hu
    · rename_i hany
      refine keysUnique_append_new st.cases _ (fun b hb => ?_) hu
      rw [hmk]
      exact any_key_false st.cases _ hany b hb
  · rename_i hany
    refine keysUnique_append_new st.cases _ (fun b hb => ?_) hu
    rw [hmk]
    exact any_key_false st.cases _ hany b hb

/-! ### Duplicate-map counting -/

/-- `duplicatesMap[k] || 0`. -/
def dupCount (d : List (String × Nat)) (k : String) : Nat :=
  match d.find? (fun p => decide (p.1 = k)) with
  | some p => p.2
  | none => 0

theorem bumpDup_self (d : List (String × Nat)) (k : String) :
    dupCount (bumpDup d k) k = dupCount d k + 1 := by
  induction d with
  | nil => simp [bumpDup, dupCount, List.find?]
  | cons p rest ih =>
    obtain ⟨k', n⟩ := p
    simp only [bumpDup]
    split
    · rename_i hk
      simp [dupCount, List.find?, hk]
    · rename_i hk
      simp only [dupCount, List.find?, decide_eq_false hk] at ih ⊢
      exact ih

theorem bumpDup_ne (d : List (String × Nat)) (k k' : String) (h : k' ≠ k) :
    dupCount (bumpDup d k') k = dupCount d k := by
  induction d with
  | nil =>
    simp [bumpDup, dupCount, List.find?, decide_eq_false h]
  | cons p rest ih =>
    obtain ⟨k0, n⟩ := p
    simp only [bumpDup]
    split
    · rename_i hk
      have h0 : ¬ k0 = k := by rw [hk]; exact h
      simp [dupCount, List.find?, decide_eq_false h0]
    · by_cases h0 : k0 = k
      · simp [dupCount, List.find?, decide_eq_true h0]
      · simp only [dupCount, List.find?, decide_eq_false h0] at ih ⊢
        exact ih

/-- The `duplicatesMap` association list never repeats a key. -/
def DupKeysUnique (d : List (String × Nat)) : Prop :=
  d.Pairwise (fun a b => a.1 ≠ b.1)

theorem bumpDup_keys (d : List (String × Nat)) (k : String) :
    ∀ p ∈ bumpDup d k, p.1 = k ∨ ∃ q ∈ d, p.1 = q.1 := by
  induction d with
  | nil =>
    intro p hp
    simp only [bumpDup, List.mem_singleton] at hp
    exact Or.inl (by rw [hp])
  | cons q rest ih =>
    intro p hp
    obtain ⟨k0, n⟩ := q
    simp only [bumpDup] at hp
    revert hp
    split
    · intro hp
      rcases List.mem_cons.1 hp with h | h
      · exact Or.inr ⟨(k0, n), List.mem_cons_self _ _, by rw [h]⟩
      · exact Or.inr ⟨p, List.mem_cons_of_mem _ h, rfl⟩
    · intro hp
      rcases List.mem_cons.1 hp with h | h
      · exact Or.inr ⟨(k0, n), List.mem_cons_self _ _, by rw [h]⟩
      · rcases ih p h with h1 | ⟨q', hq', h2⟩
        · exact Or.inl h1
        · exact Or.inr ⟨q', List.mem_cons_of_mem _ hq', h2⟩

theorem bumpDup_dupKeysUnique (d : List (String × Nat)) (k : String)
    (hu : DupKeysUnique d) : DupKeysUnique (bumpDup d k) := by
  induction d with
  | nil => simp [bumpDup, DupKeysUnique]
  | cons q rest ih =>
    obtain ⟨k0, n⟩ := q
    rw [DupKeysUnique, List.pairwise_cons] at hu
    simp only [bumpDup]
    split
    · rw [DupKeysUnique, List.pairwise_cons]
      exact ⟨hu.1, hu.2⟩
    · rename_i hk
      rw [DupKeysUnique, List.pairwise_cons]
      refine ⟨fun p hp => ?_, ih hu.2⟩
      rcases bumpDup_keys rest k p hp with h | ⟨q', hq', h2⟩
      · rw [h]; exact hk
      · rw [h2]; exact hu.1 q' hq'

/-- A positive `duplicatesMap` entry really is a member of the list. -/
theorem dupCount_mem (d : List (String × Nat)) (k : String) (n : Nat)
    (hu : DupKeysUnique d) (h : dupCount d k = n) (hn : 0 < n) : (k, n) ∈ d := by
  induction d with
  | nil => simp [dupCount, List.find?] at h; omega
  | cons p rest ih =>
    obtain ⟨k0, m⟩ := p
    rw [DupKeysUnique, List.pairwise_cons] at hu
    simp only [dupCount, List.find?] at h
    by_cases h0 : k0 = k
    · rw [decide_eq_true h0] at h
      simp only at h
      rw [← h0, ← h]
      exact List.mem_cons_self _ _
    · rw [decide_eq_false h0] at h
      exact List.mem_cons_of_mem _ (ih hu.2 h)

/-! ### Row-level step lemmas -/

/-- `rowKey` only ever produces nonempty keys. -/
theorem rowKey_ne_empty (r : RawRow) (k : String) (h : rowKey r = some k) :
    k ≠ "" := by
  unfold rowKey at h
  revert h
  cases r.case_id with
  | none => intro h; cases h
  | some s =>
    simp only
    split
    · intro h; cases h
    · rename_i hs
      intro h
      rw [← Option.some.inj h]
      exact hs

/-- For nonempty keys, `rowKey` agrees with the raw field. -/
theorem rowKey_eq_iff (r : RawRow) (k : String) (hk : k ≠ "") :
    rowKey r = some k ↔ r.case_id = some k := by
  constructor
  · intro h
    unfold rowKey at h
    revert h
    cases r.case_id with
    | none => intro h; cases h
    | some s =>
      simp only
      split
      · intro h; cases h
      · intro h; exact h
  · intro h
    unfold rowKey
    rw [h]
    simp only
    rw [if_neg hk]

/-- The accumulator after a duplicate skip (lines 122-124). -/
def skipAccOf (acc : Acc) (j : Nat) (k : String) : Acc :=
  { acc with errors := acc.errors ++ [⟨j, some k, dupMsg⟩],
             dups := bumpDup acc.dups k }

/-- An earlier duplicate occurrence is skipped: store untouched, one
non-fatal error entry, one `duplicatesMap` bump. -/
theorem stepRow_skip (env : Env) (L : String → Option Nat) (j : Nat) (r : RawRow)
    (st : Store) (acc : Acc) (k : String)
    (hrk : rowKey r = some k) (hL : L k ≠ some j) :
    stepRow env L j r st acc = (st, skipAccOf acc j k) := by
  unfold stepRow skipAccOf
  rw [hrk]
  simp only [if_pos hL]

/-- The authoritative (last) occurrence of a key, valid and with a
healthy database, is upserted and counted successful. -/
theorem stepRow_last_success (env : Env) (L : String → Option Nat) (j : Nat)
    (r : RawRow) (st : Store) (acc : Acc) (k : String) (d : CaseFields)
    (hrk : rowKey r = some k) (hL : L k = some j)
    (hp : caseSchemaParse r = Except.ok d) (he : env.upsertErr j = none) :
    stepRow env L j r st acc =
      (upsertByKey env d st,
       { acc with successCount := acc.successCount + 1 }) := by
  unfold stepRow
  rw [hrk]
  simp only [hL, ne_eq, not_true_eq_false, if_neg, ite_false]
  unfold reconcileRow
  rw [hp, he]

/-- A row whose raw key is not `k` leaves the `k`-slice of the table, the
`k`-errors and the `k`-duplicate count unchanged (business keys are
assumed not to look like synthetic `FAILED-` keys). -/
theorem stepRow_ne (env : Env) (L : String → Option Nat) (j : Nat) (r : RawRow)
    (st : Store) (acc : Acc) (k : String)
    (h7 : k.data.take 7 ≠ "FAILED-".data)
    (hne : r.case_id ≠ some k) :
    (stepRow env L j r st acc).1.cases.filter (fun c => decide (c.case_id = k)) =
      st.cases.filter (fun c => decide (c.case_id = k)) ∧
    (stepRow env L j r st acc).2.errors.filter (fun e => decide (e.case_id = some k)) =
      acc.errors.filter (fun e => decide (e.case_id = some k)) ∧
    dupCount (stepRow env L j r st acc).2.dups k = dupCount acc.dups k := by
  have hrec : ∀ st' acc', reconcileRow env j r st' acc' = (stepRow env L j r st acc) →
      True := fun _ _ _ => trivial
  clear hrec
  unfold stepRow
  cases hrk : rowKey r with
  | some k' =>
    have hk' : k' ≠ k := by
      intro h
      rw [h] at hrk
      exact hne ((rowKey_eq_iff r k (rowKey_ne_empty r k hrk)).1 hrk)
    simp only
    split
    · refine ⟨rfl, ?_, bumpDup_ne acc.dups k k' hk'⟩
      simp only [List.filter_append]
      simp [List.filter, hk']
    · -- reconcile branch
      unfold reconcileRow
      cases hp : caseSchemaParse r with
      | error msg =>
        refine ⟨?_, ?_, rfl⟩
        · exact createFailedCase_casesK env j st _ k (fun key i => rfl) h7
        · simp only [List.filter_append]
          simp [List.filter, hne]
      | ok d =>
        have hdk : d.case_id ≠ k := by
          intro h
          apply hne
          rw [caseSchemaParse_ok_caseId r d hp, h]
        cases he : env.upsertErr j with
        | none =>
          exact ⟨upsertByKey_casesK_ne env d st k (fun h => hdk h.symm), rfl, rfl⟩
        | some msg =>
          refine ⟨?_, ?_, rfl⟩
          · exact createFailedCase_casesK env j st _ k (fun key i => rfl) h7
          · simp only [List.filter_append]
            simp [List.filter, hdk]
  | none =>
    simp only
    unfold reconcileRow
    cases hp : caseSchemaParse r with
    | error msg =>
      refine ⟨?_, ?_, rfl⟩
      · exact createFailedCase_casesK env j st _ k (fun key i => rfl) h7
      · simp only [List.filter_append]
        simp [List.filter, hne]
    | ok d =>
      have hdk : d.case_id ≠ k := by
        intro h
        apply hne
        rw [caseSchemaParse_ok_caseId r d hp, h]
      cases he : env.upsertErr j with
      | none =>
        exact ⟨upsertByKey_casesK_ne env d st k (fun h => hdk h.symm), rfl, rfl⟩
      | some msg =>
        refine ⟨?_, ?_, rfl⟩
        · exact createFailedCase_casesK env j st _ k (fun key i => rfl) h7
        · simp only [List.filter_append]
          simp [List.filter, hdk]

/-- Every step preserves the unique-key invariant. -/
theorem stepRow_keysUnique (env : Env) (L : String → Option Nat) (j : Nat)
    (r : RawRow) (st : Store) (acc : Acc) (hu : KeysUnique st.cases) :
    KeysUnique (stepRow env L j r st acc).1.cases := by
  unfold stepRow reconcileRow
  split
  · split
    · exact hu
    · split
      · exact createFailedCase_keysUnique env j st _ (fun key i => rfl) hu
      · split
        · exact upsertByKey_keysUnique env _ st hu
        · exact createFailedCase_keysUnique env j st _ (fun key i => rfl) hu
  · split
    · exact createFailedCase_keysUnique env j st _ (fun key i => rfl) hu
    · split
      · exact upsertByKey_keysUnique env _ st hu
      · exact createFailedCase_keysUnique env j st _ (fun key i => rfl) hu

/-- Every step preserves the duplicate-map key uniqueness. -/
theorem stepRow_dupKeysUnique (env : Env) (L : String → Option Nat) (j : Nat)
    (r : RawRow) (st : Store) (acc : Acc) (hu : DupKeysUnique acc.dups) :
    DupKeysUnique (stepRow env L j r st acc).2.dups := by
  unfold stepRow reconcileRow
  split
  · split
    · exact bumpDup_dupKeysUnique acc.dups _ hu
    · split
      · exact hu
      · split
        · exact hu
        · exact hu
  · split
    · exact hu
    · split
      · exact hu
      · exact hu

/-! ### Segment-level lemmas -/

/-- Number of occurrences of raw key `k` in a row list. -/
def countK (k : String) (rows : List RawRow) : Nat :=
  (rows.filter (fun r => decide (r.case_id = some k))).length

theorem countK_cons_pos (k : String) (r : RawRow) (rest : List RawRow)
    (h : r.case_id = some k) : countK k (r :: rest) = countK k rest + 1 := by
  simp [countK, List.filter, h]

theorem countK_cons_neg (k : String) (r : RawRow) (rest : List RawRow)
    (h : ¬ r.case_id = some k) : countK k (r :: rest) = countK k rest := by
  simp [countK, List.filter, decide_eq_false h]

theorem countK_append (k : String) (l1 l2 : List RawRow) :
    countK k (l1 ++ l2) = countK k l1 + countK k l2 := by
  simp [countK, List.filter_append]

theorem countK_insRow (k : String) (x : RawRow) (l : List RawRow) :
    countK k (insRow x l) = countK k (x :: l) := by
  induction l with
  | nil => rfl
  | cons y ys ih =>
    simp only [insRow]
    split
    · rfl
    · by_cases hy : y.case_id = some k <;> by_cases hx : x.case_id = some k <;>
        simp [countK_cons_pos, countK_cons_neg, hy, hx, ih]

/-- The canonical reordering does not change per-key multiplicities. -/
theorem countK_sortRows (k : String) (l : List RawRow) :
    countK k (sortRows l) = countK k l := by
  induction l with
  | nil => rfl
  | cons x xs ih =>
    rw [sortRows, countK_insRow]
    by_cases hx : x.case_id = some k
    · rw [countK_cons_pos k x _ hx, countK_cons_pos k x _ hx, ih]
    · rw [countK_cons_neg k x _ hx, countK_cons_neg k x _ hx, ih]

theorem processFrom_append (env : Env) (L : String → Option Nat) :
    ∀ (l1 l2 : List RawRow) (j : Nat) (st : Store) (acc : Acc),
    processFrom env L j (l1 ++ l2) st acc =
      processFrom env L (j + l1.length) l2
        (processFrom env L j l1 st acc).1 (processFrom env L j l1 st acc).2 := by
  intro l1
  induction l1 with
  | nil => intro l2 j st acc; simp [processFrom]
  | cons r rest ih =>
    intro l2 j st acc
    have hcons : (r :: rest) ++ l2 = r :: (rest ++ l2) := rfl
    rw [hcons]
    simp only [processFrom]
    rw [ih l2 (j + 1) (stepRow env L j r st acc).1 (stepRow env L j r st acc).2]
    have h1 : j + 1 + rest.length = j + (r :: rest).length := by
      simp only [List.length_cons]
      omega
    rw [h1]

theorem processFrom_keysUnique (env : Env) (L : String → Option Nat) :
    ∀ (rows : List RawRow) (j : Nat) (st : Store) (acc : Acc),
    KeysUnique st.cases → KeysUnique (processFrom env L j rows st acc).1.cases := by
  intro rows
  induction rows with
  | nil => intro j st acc hu; exact hu
  | cons r rest ih =>
    intro j st acc hu
    simp only [processFrom]
    exact ih (j + 1) _ _ (stepRow_keysUnique env L j r st acc hu)

theorem processFrom_dupKeysUnique (env : Env) (L : String → Option Nat) :
    ∀ (rows : List RawRow) (j : Nat) (st : Store) (acc : Acc),
    DupKeysUnique acc.dups → DupKeysUnique (processFrom env L j rows st acc).2.dups := by
  intro rows
  induction rows with
  | nil => intro j st acc hu; exact hu
  | cons r rest ih =>
    intro j st acc hu
    simp only [processFrom]
    exact ih (j + 1) _ _ (stepRow_dupKeysUnique env L j r st acc hu)

/-- A run segment in which every `k`-row is a non-last occurrence (the
last-index table points elsewhere) leaves the `k`-slice of the table
untouched while pushing one non-fatal duplicate entry and one
`duplicatesMap` bump per `k`-row. -/
theorem processFrom_seg (env : Env) (L : String → Option Nat) (k : String)
    (h7 : k.data.take 7 ≠ "FAILED-".data) (hk : k ≠ "") :
    ∀ (seg : List RawRow) (j : Nat) (st : Store) (acc : Acc),
    (∀ i r, seg.get? i = some r → r.case_id = some k → L k ≠ some (j + i)) →
    ((processFrom env L j seg st acc).1.cases.filter (fun c => decide (c.case_id = k)) =
      st.cases.filter (fun c => decide (c.case_id = k))) ∧
    ((processFrom env L j seg st acc).2.errors.filter
        (fun e => decide (e.case_id = some k))).length =
      (acc.errors.filter (fun e => decide (e.case_id = some k))).length + countK k seg ∧
    (∀ e ∈ (processFrom env L j seg st acc).2.errors.filter
        (fun e => decide (e.case_id = some k)),
      e ∈ acc.errors.filter (fun e => decide (e.case_id = some k)) ∨ e.error = dupMsg) ∧
    dupCount (processFrom env L j seg st acc).2.dups k =
      dupCount acc.dups k + countK k seg := by
  intro seg
  induction seg with
  | nil =>
    intro j st acc _
    exact ⟨rfl, by simp [processFrom, countK, List.filter], fun e he => Or.inl he, by
      simp [processFrom, countK, List.filter]⟩
  | cons r rest ih =>
    intro j st acc hseg
    have hshift : ∀ i r', rest.get? i = some r' → r'.case_id = some k →
        L k ≠ some (j + 1 + i) := by
      intro i r' hg hk'
      have h := hseg (i + 1) r' (by simpa using hg) hk'
      have : j + (i + 1) = j + 1 + i := by omega
      rw [this] at h
      exact h
    by_cases hr : r.case_id = some k
    · have hrk : rowKey r = some k := (rowKey_eq_iff r k hk).2 hr
      have hL : L k ≠ some j := by
        have := hseg 0 r rfl hr
        rw [Nat.add_zero] at this
        exact this
      have hstep := stepRow_skip env L j r st acc k hrk hL
      simp only [processFrom, hstep]
      obtain ⟨hc, he, hm, hd⟩ := ih (j + 1) st (skipAccOf acc j k) hshift
      have hfe : (skipAccOf acc j k).errors.filter
            (fun e => decide (e.case_id = some k)) =
          acc.errors.filter (fun e => decide (e.case_id = some k)) ++
            [⟨j, some k, dupMsg⟩] := by
        simp [skipAccOf, List.filter_append, List.filter]
      refine ⟨hc, ?_, ?_, ?_⟩
      · rw [he, hfe, countK_cons_pos k r rest hr]
        simp only [List.length_append, List.length_singleton]
        omega
      · intro e hme
        rcases hm e hme with h1 | h1
        · rw [hfe] at h1
          rcases List.mem_append.1 h1 with h2 | h2
          · exact Or.inl h2
          · rw [List.mem_singleton] at h2
            rw [h2]
            exact Or.inr rfl
        · exact Or.inr h1
      · rw [hd]
        have hsd : (skipAccOf acc j k).dups = bumpDup acc.dups k := rfl
        rw [hsd, bumpDup_self, countK_cons_pos k r rest hr]
        omega
    · have hstep := stepRow_ne env L j r st acc k h7 hr
      simp only [processFrom]
      obtain ⟨hc, he, hm, hd⟩ := ih (j + 1) (stepRow env L j r st acc).1
        (stepRow env L j r st acc).2 hshift
      refine ⟨hc.trans hstep.1, ?_, ?_, ?_⟩
      · rw [he, hstep.2.1, countK_cons_neg k r rest hr]
      · intro e hme
        rcases hm e hme with h1 | h1
        · rw [hstep.2.1] at h1
          exact Or.inl h1
        · exact Or.inr h1
      · rw [hd, hstep.2.2, countK_cons_neg k r rest hr]

/-- `lastIndexForCase[k] = some j` really points at a `k`-row. -/
theorem lastIdxFrom_spec (k : String) :
    ∀ (rows : List RawRow) (i j : Nat), lastIdxFrom i k rows = some j →
    i ≤ j ∧ ∃ r, rows.get? (j - i) = some r ∧ rowKey r = some k := by
  intro rows
  induction rows with
  | nil => intro i j h; cases h
  | cons r rest ih =>
    intro i j h
    rw [lastIdxFrom] at h
    cases hrec : lastIdxFrom (i + 1) k rest with
    | some j0 =>
      rw [hrec] at h
      simp only [Option.some.injEq] at h
      obtain ⟨hle, r0, hg, hk0⟩ := ih (i + 1) j0 hrec
      rw [← h]
      refine ⟨by omega, r0, ?_, hk0⟩
      have h1 : j0 - i = (j0 - (i + 1)) + 1 := by omega
      rw [h1]
      simpa using hg
    | none =>
      rw [hrec] at h
      simp only at h
      split at h
      · rename_i hrk
        simp only [Option.some.injEq] at h
        rw [← h]
        exact ⟨Nat.le_refl i, r, by simp, hrk⟩
      · cases h

/-- A list splits around any position holding a known element. -/
theorem list_decomp {α : Type} :
    ∀ (l : List α) (n : Nat) (a : α), l.get? n = some a →
    l = l.take n ++ a :: l.drop (n + 1) := by
  intro l
  induction l with
  | nil => intro n a h; cases h
  | cons x xs ih =>
    intro n a h
    cases n with
    | zero =>
      simp only [List.get?] at h
      injection h with h
      simp [h]
    | succ m =>
      simp only [List.get?] at h
      rw [List.take_succ_cons, List.drop_succ_cons]
      have := ih m a h
      rw [List.cons_append, ← this]

/-- `finalize` touches only the import logs and the id counter. -/
theorem finalize_cases (env : Env) (t : Nat) (acc : Acc) (st : Store) :
    (finalize env t acc st).1.cases = st.cases ∧
    (finalize env t acc st).1.notes = st.notes := by
  unfold finalize
  split <;> exact ⟨rfl, rfl⟩

/-- The note post-pass attaches the audit note for every key present in
`duplicatesMap` whose canonical case exists. -/
theorem addDupNotes_attaches (env : Env) :
    ∀ (d : List (String × Nat)) (st : Store) (k : String) (n : Nat) (c : CaseRec),
    (k, n) ∈ d →
    st.cases.find? (fun c' => decide (c'.case_id = k)) = some c →
    ∃ nt ∈ (addDupNotes env st d).notes, nt.caseId = c.id ∧
      nt.content = dupNoteContent n := by
  intro d
  induction d with
  | nil => intro st k n c hmem; cases hmem
  | cons p rest ih =>
    intro st k n c hmem hfind
    obtain ⟨k0, n0⟩ := p
    rcases List.mem_cons.1 hmem with h | h
    · injection h with h1 h2
      subst h1
      subst h2
      simp only [addDupNotes]
      rw [hfind]
      refine ⟨⟨st.nextId, c.id, dupNoteContent n, env.userId⟩, ?_, rfl, rfl⟩
      apply addDupNotes_mem
      simp
    · simp only [addDupNotes]
      cases hf0 : st.cases.find? (fun c' => decide (c'.case_id = k0)) with
      | some c0 => exact ih _ k n c h hfind
      | none => exact ih _ k n c h hfind

theorem get?_some_lt {α : Type} :
    ∀ (l : List α) (n : Nat) (a : α), l.get? n = some a → n < l.length := by
  intro l
  induction l with
  | nil => intro n a h; cases h
  | cons x xs ih =>
    intro n a h
    cases n with
    | zero => simp only [List.length_cons]; omega
    | succ m =>
      simp only [List.get?] at h
      have := ih m a h
      simp only [List.length_cons]
      omega

/-! ### C4: duplicate-in-file resolution -/

/-- Core of the duplicate-resolution argument, phrased on the row loop
with the processing order already decomposed around the authoritative
(last) occurrence `rL` of key `k`. -/
theorem c4_core (env : Env) (L : String → Option Nat) (pre post : List RawRow)
    (rL : RawRow) (st : Store) (k : String) (d : CaseFields)
    (h7 : k.data.take 7 ≠ "FAILED-".data)
    (hrk : rowKey rL = some k)
    (hLpre : ∀ i r, pre.get? i = some r → r.case_id = some k → L k ≠ some (0 + i))
    (hLsel : L k = some pre.length)
    (hLpost : ∀ i r, post.get? i = some r → r.case_id = some k →
      L k ≠ some (pre.length + 1 + i))
    (hp : caseSchemaParse rL = Except.ok d)
    (he : env.upsertErr pre.length = none)
    (hu : KeysUnique st.cases) :
    ∃ c, ((processFrom env L 0 (pre ++ rL :: post) st ⟨0, 0, [], []⟩).1.cases.filter
        (fun c => decide (c.case_id = k))) = [c] ∧
      c.case_id = k ∧ c.applicant_name = d.applicant_name ∧
      c.dob = safeDateFrom d.dob ∧ c.email = d.email ∧ c.phone = d.phone ∧
      c.category = d.category ∧ c.priority = d.priority ∧
      c.status = d.status.getD "COMPLETED" ∧ c.errorMessage = none ∧
      ((processFrom env L 0 (pre ++ rL :: post) st ⟨0, 0, [], []⟩).2.errors.filter
          (fun e => decide (e.case_id = some k))).length + 1 =
        countK k (pre ++ rL :: post) ∧
      (∀ e ∈ (processFrom env L 0 (pre ++ rL :: post) st ⟨0, 0, [], []⟩).2.errors.filter
          (fun e => decide (e.case_id = some k)), e.error = dupMsg) ∧
      dupCount (processFrom env L 0 (pre ++ rL :: post) st ⟨0, 0, [], []⟩).2.dups k + 1 =
        countK k (pre ++ rL :: post) := by
  have hk : k ≠ "" := rowKey_ne_empty rL k hrk
  have hkd : rL.case_id = some k := (rowKey_eq_iff rL k hk).1 hrk
  have hdk : d.case_id = k := by
    have h := caseSchemaParse_ok_caseId rL d hp
    rw [hkd] at h
    exact (Option.some.inj h).symm
  have hsplit := processFrom_append env L pre (rL :: post) 0 st ⟨0, 0, [], []⟩
  rw [Nat.zero_add] at hsplit
  obtain ⟨hc1, he1, hm1, hd1⟩ := processFrom_seg env L k h7 hk pre 0 st ⟨0, 0, [], []⟩ hLpre
  have hstep := stepRow_last_success env L pre.length rL
    (processFrom env L 0 pre st ⟨0, 0, [], []⟩).1
    (processFrom env L 0 pre st ⟨0, 0, [], []⟩).2 k d hrk hLsel hp he
  have hwhole : processFrom env L 0 (pre ++ rL :: post) st ⟨0, 0, [], []⟩ =
      processFrom env L (pre.length + 1) post
        (upsertByKey env d (processFrom env L 0 pre st ⟨0, 0, [], []⟩).1)
        { (processFrom env L 0 pre st ⟨0, 0, [], []⟩).2 with
          successCount := (processFrom env L 0 pre st ⟨0, 0, [], []⟩).2.successCount + 1 } := by
    rw [hsplit]
    simp only [processFrom]
    rw [hstep]
  obtain ⟨hc2, he2, hm2, hd2⟩ := processFrom_seg env L k h7 hk post (pre.length + 1)
    (upsertByKey env d (processFrom env L 0 pre st ⟨0, 0, [], []⟩).1)
    { (processFrom env L 0 pre st ⟨0, 0, [], []⟩).2 with
      successCount := (processFrom env L 0 pre st ⟨0, 0, [], []⟩).2.successCount + 1 }
    hLpost
  have huP : KeysUnique (processFrom env L 0 pre st ⟨0, 0, [], []⟩).1.cases :=
    processFrom_keysUnique env L pre 0 st ⟨0, 0, [], []⟩ hu
  obtain ⟨c, hcfilter, hcid, hfields⟩ := upsertByKey_casesK env d
    (processFrom env L 0 pre st ⟨0, 0, [], []⟩).1 huP
  rw [hdk] at hcfilter hcid
  have hcount : countK k (pre ++ rL :: post) = countK k pre + countK k post + 1 := by
    rw [countK_append, countK_cons_pos k rL post hkd]
    omega
  refine ⟨c, ?_, hcid, hfields.1, hfields.2.1, hfields.2.2.1, hfields.2.2.2.1,
    hfields.2.2.2.2.1, hfields.2.2.2.2.2.1, hfields.2.2.2.2.2.2.1,
    hfields.2.2.2.2.2.2.2.2.2, ?_, ?_, ?_⟩
  · rw [hwhole]
    exact hc2.trans hcfilter
  · rw [hwhole, he2]
    have hacc : ({ (processFrom env L 0 pre st ⟨0, 0, [], []⟩).2 with
        successCount := (processFrom env L 0 pre st ⟨0, 0, [], []⟩).2.successCount + 1 } :
          Acc).errors = (processFrom env L 0 pre st ⟨0, 0, [], []⟩).2.errors := rfl
    rw [hacc, he1, hcount]
    simp [List.filter]
  · intro e hme
    rw [hwhole] at hme
    rcases hm2 e hme with h1 | h1
    · rcases hm1 e h1 with h2 | h2
      · simp [List.filter] at h2
      · exact h2
    · exact h1
  · rw [hwhole, hd2]
    have hacc : ({ (processFrom env L 0 pre st ⟨0, 0, [], []⟩).2 with
        successCount := (processFrom env L 0 pre st ⟨0, 0, [], []⟩).2.successCount + 1 } :
          Acc).dups = (processFrom env L 0 pre st ⟨0, 0, [], []⟩).2.dups := rfl
    rw [hacc, hd1, hcount]
    have hz : dupCount ([] : List (String × Nat)) k = 0 := rfl
    rw [hz]
    omega

/-- C4 (amended): when a business key `k` occurs more than once in a
run's input AND the authoritative (canonically last) occurrence passes
validation and its upsert succeeds, then exactly one case record with key
`k` remains, carrying that last occurrence's fields; every earlier
occurrence yields exactly one non-fatal duplicate entry in the error
list; and a Note stating how many earlier occurrences were ignored is
attached to the authoritative case.  (If the last occurrence itself
fails, the counterexample shows no case with the key need exist and no
Note is attached.)  The key is assumed not to look like a synthetic
`FAILED-` fallback key. -/
theorem c4_duplicate_resolution (env : Env) (raw : List RawRow) (st : Store)
    (k : String) (jL : Nat) (rL : RawRow) (d : CaseFields)
    (h7 : k.data.take 7 ≠ "FAILED-".data)
    (hm : 2 ≤ countK k raw)
    (hL : lastIdxOf (sortRows raw) k = some jL)
    (hrL : (sortRows raw).get? jL = some rL)
    (hp : caseSchemaParse rL = Except.ok d)
    (he : env.upsertErr jL = none)
    (hu : KeysUnique st.cases) :
    ∃ c, ((runBatch env raw st).1.cases.filter (fun c => decide (c.case_id = k))) = [c] ∧
      c.case_id = k ∧ c.applicant_name = d.applicant_name ∧
      c.dob = safeDateFrom d.dob ∧ c.email = d.email ∧ c.phone = d.phone ∧
      c.category = d.category ∧ c.priority = d.priority ∧
      c.status = d.status.getD "COMPLETED" ∧ c.errorMessage = none ∧
      (∃ nt ∈ (runBatch env raw st).1.notes, nt.caseId = c.id ∧
        nt.content = dupNoteContent (countK k raw - 1)) ∧
      ((runBatch env raw st).2.errors.filter
          (fun e => decide (e.case_id = some k))).length + 1 = countK k raw ∧
      (∀ e ∈ (runBatch env raw st).2.errors.filter
          (fun e => decide (e.case_id = some k)), e.error = dupMsg) := by
  obtain ⟨-, r0, hg0, hk0⟩ := lastIdxFrom_spec k (sortRows raw) 0 jL hL
  rw [Nat.sub_zero] at hg0
  have hr0 : r0 = rL := by rw [hg0] at hrL; exact Option.some.inj hrL
  subst hr0
  have hjlt : jL < (sortRows raw).length := get?_some_lt _ jL r0 hrL
  have hplen : ((sortRows raw).take jL).length = jL := by
    rw [List.length_take]
    exact Nat.min_eq_left (Nat.le_of_lt hjlt)
  have hdec := list_decomp (sortRows raw) jL r0 hrL
  have hLsel : lastIdxOf (sortRows raw) k = some ((sortRows raw).take jL).length := by
    rw [hplen]
    exact hL
  have hLpre : ∀ i r, ((sortRows raw).take jL).get? i = some r →
      r.case_id = some k → lastIdxOf (sortRows raw) k ≠ some (0 + i) := by
    intro i r hg _
    have hi : i < ((sortRows raw).take jL).length := get?_some_lt _ i r hg
    rw [hplen] at hi
    rw [hL]
    intro hcon
    have := Option.some.inj hcon
    omega
  have hLpost : ∀ i r, ((sortRows raw).drop (jL + 1)).get? i = some r →
      r.case_id = some k →
      lastIdxOf (sortRows raw) k ≠ some (((sortRows raw).take jL).length + 1 + i) := by
    intro i r _ _
    rw [hL, hplen]
    intro hcon
    have := Option.some.inj hcon
    omega
  have he' : env.upsertErr ((sortRows raw).take jL).length = none := by
    rw [hplen]
    exact he
  obtain ⟨c, hfilter, hcid, ha, hdob, hem, hph, hcat, hpri, hstat, herrm, hlen, hmemd, hdupc⟩ :=
    c4_core env (lastIdxOf (sortRows raw)) ((sortRows raw).take jL)
      ((sortRows raw).drop (jL + 1)) r0 st k d h7 hk0 hLpre hLsel hLpost hp he' hu
  rw [← hdec] at hfilter hlen hmemd hdupc
  have hrc : runCore env raw st =
      processFrom env (lastIdxOf (sortRows raw)) 0 (sortRows raw) st ⟨0, 0, [], []⟩ := rfl
  rw [← hrc] at hfilter hlen hmemd hdupc
  rw [countK_sortRows k raw] at hlen hdupc
  have hdku : DupKeysUnique (runCore env raw st).2.dups := by
    rw [hrc]
    exact processFrom_dupKeysUnique env (lastIdxOf (sortRows raw)) (sortRows raw) 0 st
      ⟨0, 0, [], []⟩ List.Pairwise.nil
  have hfind : (runCore env raw st).1.cases.find?
      (fun c' => decide (c'.case_id = k)) = some c := by
    rw [find?_filter_head, hfilter]
    rfl
  have hmemdup : (k, countK k raw - 1) ∈ (runCore env raw st).2.dups :=
    dupCount_mem _ k _ hdku (by omega) (by omega)
  obtain ⟨nt, hntmem, hntc, hntcontent⟩ := addDupNotes_attaches env
    (runCore env raw st).2.dups (runCore env raw st).1 k (countK k raw - 1) c hmemdup hfind
  have hb1 : (runBatch env raw st).1 =
      (finalize env (sortRows raw).length (runCore env raw st).2
        (addDupNotes env (runCore env raw st).1 (runCore env raw st).2.dups)).1 := rfl
  have hbc : (runBatch env raw st).1.cases = (runCore env raw st).1.cases := by
    rw [hb1, (finalize_cases ..).1, (addDupNotes_cases ..).1]
  have hbn : (runBatch env raw st).1.notes =
      (addDupNotes env (runCore env raw st).1 (runCore env raw st).2.dups).notes := by
    rw [hb1, (finalize_cases ..).2]
  have hberr : (runBatch env raw st).2.errors = (runCore env raw st).2.errors := rfl
  refine ⟨c, ?_, hcid, ha, hdob, hem, hph, hcat, hpri, hstat, herrm,
    ⟨nt, ?_, hntc, hntcontent⟩, ?_, ?_⟩
  · rw [hbc]
    exact hfilter
  · rw [hbn]
    exact hntmem
  · rw [hberr]
    exact hlen
  · rw [hberr]
    exact hmemd

/-- Witness for C4 (amended) at the spec's own example: two rows with key
`A`, names `old` then `new`. -/
theorem c4_duplicate_resolution_witness :
    (("A" : String).data.take 7 ≠ "FAILED-".data) ∧
    2 ≤ countK "A" [({ case_id := some "A", applicant_name := some "old" } : RawRow),
      { case_id := some "A", applicant_name := some "new" }] ∧
    lastIdxOf (sortRows [({ case_id := some "A", applicant_name := some "old" } : RawRow),
      { case_id := some "A", applicant_name := some "new" }]) "A" = some 1 ∧
    (sortRows [({ case_id := some "A", applicant_name := some "old" } : RawRow),
      { case_id := some "A", applicant_name := some "new" }]).get? 1 =
      some { case_id := some "A", applicant_name := some "new" } ∧
    caseSchemaParse { case_id := some "A", applicant_name := some "new" } =
      (Except.ok { case_id := "A", applicant_name := some "new" } :
        Except String CaseFields) ∧
    (∃ c, ((runBatch { importTimestamp := 50, userId := some "u1" }
        [({ case_id := some "A", applicant_name := some "old" } : RawRow),
         { case_id := some "A", applicant_name := some "new" }] {}).1.cases.filter
        (fun c => decide (c.case_id = "A"))) = [c] ∧
      c.case_id = "A" ∧
      c.applicant_name = ({ case_id := "A", applicant_name := some "new" } :
        CaseFields).applicant_name ∧
      c.dob = safeDateFrom ({ case_id := "A", applicant_name := some "new" } :
        CaseFields).dob ∧
      c.email = ({ case_id := "A", applicant_name := some "new" } : CaseFields).email ∧
      c.phone = ({ case_id := "A", applicant_name := some "new" } : CaseFields).phone ∧
      c.category = ({ case_id := "A", applicant_name := some "new" } : CaseFields).category ∧
      c.priority = ({ case_id := "A", applicant_name := some "new" } : CaseFields).priority ∧
      c.status = (({ case_id := "A", applicant_name := some "new" } :
        CaseFields).status).getD "COMPLETED" ∧ c.errorMessage = none ∧
      (∃ nt ∈ (runBatch { importTimestamp := 50, userId := some "u1" }
          [({ case_id := some "A", applicant_name := some "old" } : RawRow),
           { case_id := some "A", applicant_name := some "new" }] {}).1.notes,
        nt.caseId = c.id ∧
        nt.content = dupNoteContent (countK "A"
          [({ case_id := some "A", applicant_name := some "old" } : RawRow),
           { case_id := some "A", applicant_name := some "new" }] - 1)) ∧
      ((runBatch { importTimestamp := 50, userId := some "u1" }
          [({ case_id := some "A", applicant_name := some "old" } : RawRow),
           { case_id := some "A", applicant_name := some "new" }] {}).2.errors.filter
          (fun e => decide (e.case_id = some "A"))).length + 1 =
        countK "A" [({ case_id := some "A", applicant_name := some "old" } : RawRow),
          { case_id := some "A", applicant_name := some "new" }] ∧
      (∀ e ∈ (runBatch { importTimestamp := 50, userId := some "u1" }
          [({ case_id := some "A", applicant_name := some "old" } : RawRow),
           { case_id := some "A", applicant_name := some "new" }] {}).2.errors.filter
          (fun e => decide (e.case_id = some "A")), e.error = dupMsg)) :=
  ⟨by decide, by decide, by decide, by decide, rfl,
    c4_duplicate_resolution { importTimestamp := 50, userId := some "u1" }
      [{ case_id := some "A", applicant_name := some "old" },
       { case_id := some "A", applicant_name := some "new" }] {} "A" 1
      { case_id := some "A", applicant_name := some "new" }
      { case_id := "A", applicant_name := some "new" }
      (by decide) (by decide) (by decide) (by decide) rfl rfl
      List.Pairwise.nil⟩

/-- C4 counterexample: when the authoritative (last) occurrence of the
duplicated key itself fails validation, NO case with that key is
persisted (the row lands under a fallback key) and no Note is attached -
so the claim's unconditional "exactly one case for that key ... and a
Note is attached" is false. -/
theorem c4_counterexample :
    ((runBatch { importTimestamp := 60, userId := some "u1" }
        [{ case_id := some "A", email := some "bad" },
         { case_id := some "A", email := some "bad" }] {}).1.cases.filter
      (fun c => decide (c.case_id = "A"))) = [] ∧
    (runBatch { importTimestamp := 60, userId := some "u1" }
        [{ case_id := some "A", email := some "bad" },
         { case_id := some "A", email := some "bad" }] {}).1.notes = [] ∧
    countK "A" [({ case_id := some "A", email := some "bad" } : RawRow),
      { case_id := some "A", email := some "bad" }] = 2 := by
  refine ⟨by decide, by decide, by decide⟩

/-! ### C5: idempotent re-import -/

/-- A run on one valid row with a healthy database is exactly an upsert
of that row (sorting and duplicate handling are trivial, the note
post-pass does nothing, finalization leaves the case table alone). -/
theorem runBatch_single_cases (env : Env) (r : RawRow) (st : Store) (k : String)
    (d : CaseFields)
    (hk : rowKey r = some k)
    (hp : caseSchemaParse r = Except.ok d)
    (he : env.upsertErr 0 = none) :
    (runBatch env [r] st).1.cases = (upsertByKey env d st).cases := by
  have hLk : lastIdxOf [r] k = some 0 := by
    simp [lastIdxOf, lastIdxFrom, hk]
  have h1 : runCore env [r] st =
      stepRow env (lastIdxOf [r]) 0 r st ⟨0, 0, [], []⟩ := rfl
  have hcore : runCore env [r] st =
      (upsertByKey env d st,
       { successCount := 1, failCount := 0, errors := [], dups := [] }) := by
    rw [h1, stepRow_last_success env (lastIdxOf [r]) 0 r st ⟨0, 0, [], []⟩ k d hk hLk hp he]
  have hb1 : (runBatch env [r] st).1 =
      (finalize env (sortRows [r]).length (runCore env [r] st).2
        (addDupNotes env (runCore env [r] st).1 (runCore env [r] st).2.dups)).1 := rfl
  rw [hb1, (finalize_cases ..).1, hcore]
  rfl

/-- C5 (confirmed): submitting the same valid row in two separate runs is
idempotent at the store level - afterwards exactly one case record holds
that `caseKey`, its fields equal the latest submission's (including the
second run's importer stamp and shared timestamp), its `errorMessage` is
null and its status is the row's declared status or COMPLETED. -/
theorem c5_idempotent_reimport (env1 env2 : Env) (r : RawRow) (st : Store)
    (k : String) (d : CaseFields)
    (hk : rowKey r = some k)
    (hp : caseSchemaParse r = Except.ok d)
    (he1 : env1.upsertErr 0 = none) (he2 : env2.upsertErr 0 = none)
    (hu : KeysUnique st.cases) :
    ∃ c, ((runBatch env2 [r] (runBatch env1 [r] st).1).1.cases.filter
        (fun c => decide (c.case_id = k))) = [c] ∧
      c.case_id = k ∧ c.applicant_name = d.applicant_name ∧
      c.dob = safeDateFrom d.dob ∧ c.email = d.email ∧ c.phone = d.phone ∧
      c.category = d.category ∧ c.priority = d.priority ∧
      c.status = d.status.getD "COMPLETED" ∧ c.errorMessage = none ∧
      c.importedById = env2.userId ∧ c.importedAt = some env2.importTimestamp := by
  have hdk : d.case_id = k := by
    have h := caseSchemaParse_ok_caseId r d hp
    rw [(rowKey_eq_iff r k (rowKey_ne_empty r k hk)).1 hk] at h
    exact (Option.some.inj h).symm
  have h1 := runBatch_single_cases env1 r st k d hk hp he1
  have hu1 : KeysUnique (runBatch env1 [r] st).1.cases := by
    rw [h1]
    exact upsertByKey_keysUnique env1 d st hu
  have h2 := runBatch_single_cases env2 r (runBatch env1 [r] st).1 k d hk hp he2
  obtain ⟨c, hcf, hcid, hfields⟩ := upsertByKey_casesK env2 d (runBatch env1 [r] st).1 hu1
  rw [hdk] at hcf hcid
  exact ⟨c, by rw [h2]; exact hcf, hcid, hfields.1, hfields.2.1, hfields.2.2.1,
    hfields.2.2.2.1, hfields.2.2.2.2.1, hfields.2.2.2.2.2.1, hfields.2.2.2.2.2.2.1,
    hfields.2.2.2.2.2.2.2.2.2, hfields.2.2.2.2.2.2.2.1, hfields.2.2.2.2.2.2.2.2.1⟩

/-- Witness for C5 at a concrete valid row submitted in two runs. -/
theorem c5_idempotent_reimport_witness :
    rowKey { case_id := some "K7" } = some "K7" ∧
    caseSchemaParse { case_id := some "K7" } =
      (Except.ok { case_id := "K7" } : Except String CaseFields) ∧
    ∃ c, ((runBatch { importTimestamp := 2, userId := some "u2" } [{ case_id := some "K7" }]
        (runBatch { importTimestamp := 1, userId := some "u2" }
          [{ case_id := some "K7" }] {}).1).1.cases.filter
        (fun c => decide (c.case_id = "K7"))) = [c] ∧
      c.case_id = "K7" ∧
      c.applicant_name = ({ case_id := "K7" } : CaseFields).applicant_name ∧
      c.dob = safeDateFrom ({ case_id := "K7" } : CaseFields).dob ∧
      c.email = ({ case_id := "K7" } : CaseFields).email ∧
      c.phone = ({ case_id := "K7" } : CaseFields).phone ∧
      c.category = ({ case_id := "K7" } : CaseFields).category ∧
      c.priority = ({ case_id := "K7" } : CaseFields).priority ∧
      c.status = (({ case_id := "K7" } : CaseFields).status).getD "COMPLETED" ∧
      c.errorMessage = none ∧
      c.importedById = some "u2" ∧ c.importedAt = some 2 :=
  ⟨rfl, rfl,
    c5_idempotent_reimport { importTimestamp := 1, userId := some "u2" }
      { importTimestamp := 2, userId := some "u2" } { case_id := some "K7" } {}
      "K7" { case_id := "K7" } rfl rfl rfl rfl List.Pairwise.nil⟩

/-! ### C10: case-sensitive duplicate detection vs case-insensitive order -/

/-- The collation key only sees case-folded code points. -/
theorem natKeyAux_lowerCode :
    ∀ (l1 l2 : List Char), l1.map lowerCode = l2.map lowerCode →
    ∀ acc, natKeyAux acc l1 = natKeyAux acc l2 := by
  intro l1
  induction l1 with
  | nil =>
    intro l2 h acc
    cases l2 with
    | nil => rfl
    | cons c r => simp at h
  | cons c1 r1 ih =>
    intro l2 h acc
    cases l2 with
    | nil => simp at h
    | cons c2 r2 =>
      simp only [List.map_cons, List.cons.injEq] at h
      obtain ⟨hc, hr⟩ := h
      have hcc : (48 ≤ c1.toNat ∧ c1.toNat ≤ 57) ↔ (48 ≤ c2.toNat ∧ c2.toNat ≤ 57) := by
        unfold lowerCode at hc
        split at hc <;> split at hc <;> omega
      by_cases hd : 48 ≤ c1.toNat ∧ c1.toNat ≤ 57
      · have hd2 : 48 ≤ c2.toNat ∧ c2.toNat ≤ 57 := hcc.1 hd
        have hval : c1.toNat = c2.toNat := by
          unfold lowerCode at hc
          split at hc <;> split at hc <;> omega
        simp only [natKeyAux, if_pos hd, if_pos hd2, hval]
        exact ih r2 hr _
      · have hd2 : ¬ (48 ≤ c2.toNat ∧ c2.toNat ≤ 57) := fun h => hd (hcc.2 h)
        simp only [natKeyAux, if_neg hd, if_neg hd2, hc]
        rw [ih r2 hr none]

theorem cmpTok_self (x : Nat ⊕ Nat) : cmpTok x x = Ordering.eq := by
  cases x <;> simp [cmpTok]

theorem keyCmp_self (l : List (Nat ⊕ Nat)) : keyCmp l l = Ordering.eq := by
  induction l with
  | nil => rfl
  | cons x xs ih => simp [keyCmp, cmpTok_self, ih]

/-- Keys differing only in letter case collate as equal. -/
theorem natCmp_base_eq (k1 k2 : String)
    (hbase : k1.data.map lowerCode = k2.data.map lowerCode) :
    natCmp k1 k2 = Ordering.eq := by
  unfold natCmp
  rw [natKeyAux_lowerCode k1.data k2.data hbase none]
  exact keyCmp_self _

/-- C10 (confirmed): duplicate detection compares exact, case-sensitive
key strings even though the canonical order folds case - two valid rows
whose keys differ only in letter case are both authoritative: neither is
flagged as a duplicate (the error list stays empty), and each is
upserted as its own record under its own exact key. -/
theorem c10_case_sensitive_duplicates (env : Env) (st : Store) (r1 r2 : RawRow)
    (k1 k2 : String) (d1 d2 : CaseFields)
    (h1 : r1.case_id = some k1) (h2 : r2.case_id = some k2)
    (hk1 : k1 ≠ "") (hk2 : k2 ≠ "")
    (hne : k1 ≠ k2)
    (hbase : k1.data.map lowerCode = k2.data.map lowerCode)
    (hp1 : caseSchemaParse r1 = Except.ok d1) (hp2 : caseSchemaParse r2 = Except.ok d2)
    (he0 : env.upsertErr 0 = none) (he1 : env.upsertErr 1 = none)
    (hu : KeysUnique st.cases) :
    (runBatch env [r1, r2] st).2.errors = [] ∧
    ∃ c1 c2,
      ((runBatch env [r1, r2] st).1.cases.filter (fun c => decide (c.case_id = k1))) = [c1] ∧
      ((runBatch env [r1, r2] st).1.cases.filter (fun c => decide (c.case_id = k2))) = [c2] ∧
      c1.case_id = k1 ∧ c2.case_id = k2 ∧ c1.case_id ≠ c2.case_id ∧
      c1.applicant_name = d1.applicant_name ∧ c2.applicant_name = d2.applicant_name ∧
      c1.status = d1.status.getD "COMPLETED" ∧ c2.status = d2.status.getD "COMPLETED" ∧
      c1.errorMessage = none ∧ c2.errorMessage = none := by
  have hrk1 : rowKey r1 = some k1 := (rowKey_eq_iff r1 k1 hk1).2 h1
  have hrk2 : rowKey r2 = some k2 := (rowKey_eq_iff r2 k2 hk2).2 h2
  have hd1k : d1.case_id = k1 := by
    have h := caseSchemaParse_ok_caseId r1 d1 hp1
    rw [h1] at h
    exact (Option.some.inj h).symm
  have hd2k : d2.case_id = k2 := by
    have h := caseSchemaParse_ok_caseId r2 d2 hp2
    rw [h2] at h
    exact (Option.some.inj h).symm
  have hle : rowLe r1 r2 = true := by
    unfold rowLe sortKeyOf
    rw [h1, h2]
    simp only [Option.getD_some]
    rw [natCmp_base_eq k1 k2 hbase]
  have hsort : sortRows [r1, r2] = [r1, r2] := by
    show insRow r1 (insRow r2 []) = [r1, r2]
    have h2r : insRow r2 ([] : List RawRow) = [r2] := rfl
    rw [h2r]
    unfold insRow
    rw [hle]
    simp
  have hL1 : lastIdxOf [r1, r2] k1 = some 0 := by
    unfold lastIdxOf
    simp only [lastIdxFrom, hrk1, hrk2]
    rw [if_neg (fun h => hne (Option.some.inj h).symm)]
    simp
  have hL2 : lastIdxOf [r1, r2] k2 = some 1 := by
    unfold lastIdxOf
    simp only [lastIdxFrom, hrk2]
    simp
  have hcore : runCore env [r1, r2] st =
      (upsertByKey env d2 (upsertByKey env d1 st),
       { successCount := 2, failCount := 0, errors := [], dups := [] }) := by
    have hrc : runCore env [r1, r2] st =
        processFrom env (lastIdxOf (sortRows [r1, r2])) 0 (sortRows [r1, r2]) st
          ⟨0, 0, [], []⟩ := rfl
    rw [hrc, hsort]
    simp only [processFrom]
    rw [stepRow_last_success env (lastIdxOf [r1, r2]) 0 r1 st ⟨0, 0, [], []⟩ k1 d1
      hrk1 hL1 hp1 he0]
    simp only
    rw [stepRow_last_success env (lastIdxOf [r1, r2]) 1 r2 (upsertByKey env d1 st)
      { successCount := 0 + 1, failCount := 0, errors := [], dups := [] } k2 d2
      hrk2 hL2 hp2 he1]
  have hu1 : KeysUnique (upsertByKey env d1 st).cases :=
    upsertByKey_keysUnique env d1 st hu
  obtain ⟨c2, hcf2, hcid2, hfields2⟩ := upsertByKey_casesK env d2 (upsertByKey env d1 st) hu1
  rw [hd2k] at hcf2 hcid2
  obtain ⟨c1, hcf1, hcid1, hfields1⟩ := upsertByKey_casesK env d1 st hu
  rw [hd1k] at hcf1 hcid1
  have hcf1' : (upsertByKey env d2 (upsertByKey env d1 st)).cases.filter
      (fun c => decide (c.case_id = k1)) = [c1] := by
    rw [upsertByKey_casesK_ne env d2 (upsertByKey env d1 st) k1 (by rw [hd2k]; exact hne)]
    exact hcf1
  have hb1 : (runBatch env [r1, r2] st).1 =
      (finalize env (sortRows [r1, r2]).length (runCore env [r1, r2] st).2
        (addDupNotes env (runCore env [r1, r2] st).1
          (runCore env [r1, r2] st).2.dups)).1 := rfl
  have hbc : (runBatch env [r1, r2] st).1.cases =
      (upsertByKey env d2 (upsertByKey env d1 st)).cases := by
    rw [hb1, (finalize_cases ..).1, hcore]
    rfl
  have hberr : (runBatch env [r1, r2] st).2.errors = (runCore env [r1, r2] st).2.errors := rfl
  refine ⟨by rw [hberr, hcore], c1, c2, ?_, ?_, hcid1, hcid2, ?_,
    hfields1.1, hfields2.1, hfields1.2.2.2.2.2.2.1, hfields2.2.2.2.2.2.2.1,
    hfields1.2.2.2.2.2.2.2.2.2, hfields2.2.2.2.2.2.2.2.2.2⟩
  · rw [hbc]
    exact hcf1'
  · rw [hbc]
    exact hcf2
  · rw [hcid1, hcid2]
    exact hne

/-- Witness for C10 at the keys `a1` and `A1`. -/
theorem c10_case_sensitive_duplicates_witness :
    (({ case_id := some "a1" } : RawRow).case_id = some "a1") ∧
    ("a1" : String).data.map lowerCode = ("A1" : String).data.map lowerCode ∧
    ("a1" : String) ≠ "A1" ∧
    ((runBatch { importTimestamp := 9, userId := some "u3" }
        [{ case_id := some "a1" }, { case_id := some "A1" }] {}).2.errors = [] ∧
    ∃ c1 c2,
      ((runBatch { importTimestamp := 9, userId := some "u3" }
          [{ case_id := some "a1" }, { case_id := some "A1" }] {}).1.cases.filter
        (fun c => decide (c.case_id = "a1"))) = [c1] ∧
      ((runBatch { importTimestamp := 9, userId := some "u3" }
          [{ case_id := some "a1" }, { case_id := some "A1" }] {}).1.cases.filter
        (fun c => decide (c.case_id = "A1"))) = [c2] ∧
      c1.case_id = "a1" ∧ c2.case_id = "A1" ∧ c1.case_id ≠ c2.case_id ∧
      c1.applicant_name = ({ case_id := "a1" } : CaseFields).applicant_name ∧
      c2.applicant_name = ({ case_id := "A1" } : CaseFields).applicant_name ∧
      c1.status = (({ case_id := "a1" } : CaseFields).status).getD "COMPLETED" ∧
      c2.status = (({ case_id := "A1" } : CaseFields).status).getD "COMPLETED" ∧
      c1.errorMessage = none ∧ c2.errorMessage = none) :=
  ⟨rfl, by decide, by decide,
    c10_case_sensitive_duplicates { importTimestamp := 9, userId := some "u3" } {}
      { case_id := some "a1" } { case_id := some "A1" } "a1" "A1"
      { case_id := "a1" } { case_id := "A1" }
      rfl rfl (by decide) (by decide) (by decide) (by decide)
      rfl rfl rfl rfl List.Pairwise.nil⟩

/-! ### C9: single-case partial update (`PUT /api/cases/:caseId`) -/

/-- Sparse update payload of `PUT /api/cases/:caseId` (lines 524-534):
outer `none` means the key is absent from the JSON body (the
`!== undefined` checks), inner `none` an explicit JSON null.  `status`
is absent-or-string only: its column is a non-nullable enum, so an
explicit null never survives the storage layer. -/
structure UpdatePayload where
  applicant_name : Option (Option String) := none
  email : Option (Option String) := none
  phone : Option (Option String) := none
  category : Option (Option String) := none
  status : Option String := none
  dob : Option (Option String) := none
  priority : Option (Option PrioIn) := none
deriving DecidableEq, Repr

/-- Outcome of the PUT handler. -/
inductive PutOutcome where
  | notFound
  | forbidden
  | ok (c : CaseRec)
deriving DecidableEq, Repr

/-- The lookup of lines 507-513: by primary id, else by business
`case_id` (the source's UUID-shape guard only avoids a database type
error for non-UUID strings, which the model's total lookup absorbs). -/
def findExisting (st : Store) (caseId : String) : Option CaseRec :=
  match st.cases.find? (fun c => decide (toString c.id = caseId)) with
  | some c => some c
  | none => st.cases.find? (fun c => decide (c.case_id = caseId))

/-- `String(existing.importedById)`: JS stringifies null to `"null"`. -/
def jsStrOfOpt : Option String → String
  | some s => s
  | none => "null"

/-- The `updateData` assembly of lines 524-534 applied by the
`prisma.case.update` of lines 537-544; each permitted field is set
exactly once, so the sequential JS assignments collapse to one record
update. -/
def applyPayload (p : UpdatePayload) (c : CaseRec) : CaseRec :=
  { c with
    applicant_name := match p.applicant_name with | some v => v | none => c.applicant_name
    email := match p.email with | some v => v | none => c.email
    phone := match p.phone with | some v => v | none => c.phone
    category := match p.category with | some v => v | none => c.category
    status := match p.status with | some v => v | none => c.status
    dob := match p.dob with | some v => safeDateFrom v | none => c.dob
    priority := match p.priority with | some v => parsePriorityValue v | none => c.priority }

/-- `prisma.case.update({ where: { id } ... })`. -/
def updateWhereId (cs : List CaseRec) (i : Nat) (f : CaseRec → CaseRec) :
    List CaseRec :=
  match cs with
  | [] => []
  | c :: rest => if c.id = i then f c :: rest else c :: updateWhereId rest i f

/-- `PUT /api/cases/:caseId` (cases.js lines 497-551): look the case up,
let only the importer of record or an ADMIN through, apply the sparse
payload to the permitted fields, return the updated record. -/
def putCase (st : Store) (caseId : String) (p : UpdatePayload)
    (userId : Option String) (role : String) : Store × PutOutcome :=
  match findExisting st caseId with
  | none => (st, .notFound)
  | some existing =>
    if jsToUpper role ≠ "ADMIN" ∧ jsStrOfOpt existing.importedById ≠ userId.getD "" then
      (st, .forbidden)
    else
      ({ st with
         cases := updateWhereId st.cases existing.id (fun _ => applyPayload p existing) },
       .ok (applyPayload p existing))

theorem updateWhereId_mem (i : Nat) (x : CaseRec) :
    ∀ (cs : List CaseRec), ∀ c ∈ updateWhereId cs i (fun _ => x),
    c ∈ cs ∨ c = x := by
  intro cs
  induction cs with
  | nil => intro c hc; cases hc
  | cons c0 rest ih =>
    intro c hc
    simp only [updateWhereId] at hc
    revert hc
    split
    · intro hc
      rcases List.mem_cons.1 hc with h | h
      · exact Or.inr h
      · exact Or.inl (List.mem_cons_of_mem _ h)
    · intro hc
      rcases List.mem_cons.1 hc with h | h
      · exact Or.inl (h ▸ List.mem_cons_self _ _)
      · rcases ih c h with h1 | h1
        · exact Or.inl (List.mem_cons_of_mem _ h1)
        · exact Or.inr h1

/-- C9 (confirmed): the partial update never touches `id`, `caseKey`,
`importedBy`, `importedAt` or `errorMessage`; every permitted field
absent from the payload keeps its prior value; no record other than the
updated one is introduced; notes and import logs are untouched; and the
not-found / forbidden paths change nothing. -/
theorem c9_partial_update (st : Store) (caseId : String) (p : UpdatePayload)
    (uid : Option String) (role : String) :
    (∀ c', (putCase st caseId p uid role).2 = PutOutcome.ok c' →
      ∃ existing, findExisting st caseId = some existing ∧
        c'.id = existing.id ∧ c'.case_id = existing.case_id ∧
        c'.importedById = existing.importedById ∧
        c'.importedAt = existing.importedAt ∧
        c'.errorMessage = existing.errorMessage ∧
        (p.applicant_name = none → c'.applicant_name = existing.applicant_name) ∧
        (p.email = none → c'.email = existing.email) ∧
        (p.phone = none → c'.phone = existing.phone) ∧
        (p.category = none → c'.category = existing.category) ∧
        (p.status = none → c'.status = existing.status) ∧
        (p.dob = none → c'.dob = existing.dob) ∧
        (p.priority = none → c'.priority = existing.priority) ∧
        (∀ c ∈ (putCase st caseId p uid role).1.cases, c ∈ st.cases ∨ c = c') ∧
        (putCase st caseId p uid role).1.notes = st.notes ∧
        (putCase st caseId p uid role).1.importLogs = st.importLogs) ∧
    (((putCase st caseId p uid role).2 = PutOutcome.notFound ∨
      (putCase st caseId p uid role).2 = PutOutcome.forbidden) →
      (putCase st caseId p uid role).1 = st) := by
  unfold putCase
  cases hf : findExisting st caseId with
  | none =>
    exact ⟨fun c' h => (nomatch h), fun _ => rfl⟩
  | some existing =>
    simp only
    by_cases hperm : jsToUpper role ≠ "ADMIN" ∧
        jsStrOfOpt existing.importedById ≠ uid.getD ""
    · rw [if_pos hperm]
      exact ⟨fun c' h => (nomatch h), fun _ => rfl⟩
    · rw [if_neg hperm]
      constructor
      · intro c' h
        have hc' : c' = applyPayload p existing := (PutOutcome.ok.inj h).symm
        subst hc'
        refine ⟨existing, rfl, rfl, rfl, rfl, rfl, rfl, ?_, ?_, ?_, ?_, ?_, ?_, ?_,
          ?_, rfl, rfl⟩
        · intro hp0; simp [applyPayload, hp0]
        · intro hp0; simp [applyPayload, hp0]
        · intro hp0; simp [applyPayload, hp0]
        · intro hp0; simp [applyPayload, hp0]
        · intro hp0; simp [applyPayload, hp0]
        · intro hp0; simp [applyPayload, hp0]
        · intro hp0; simp [applyPayload, hp0]
        · exact updateWhereId_mem existing.id (applyPayload p existing) st.cases
      · intro h
        rcases h with h | h <;> cases h

/-- Concrete fixtures for the C9 witness. -/
def c9Store : Store :=
  { cases := [{ id := 0, case_id := "C1", applicant_name := some "x",
                status := "NEW", importedById := some "u",
                errorMessage := some "old error" }] }

/-- C9 witness payload: only `email` is present. -/
def c9Payload : UpdatePayload := { email := some (some "n@x.com") }

/-- The record the C9 witness update returns. -/
def c9Updated : CaseRec :=
  { id := 0, case_id := "C1", applicant_name := some "x",
    email := some "n@x.com", status := "NEW", importedById := some "u",
    errorMessage := some "old error" }

/-- Witness for C9: a payload updating only `email` on a store with one
case leaves every other field and record alone. -/
theorem c9_partial_update_witness :
    ((putCase c9Store "C1" c9Payload (some "u") "admin").2 = PutOutcome.ok c9Updated) ∧
    (∃ existing, findExisting c9Store "C1" = some existing ∧
      c9Updated.id = existing.id ∧ c9Updated.case_id = existing.case_id ∧
      c9Updated.importedById = existing.importedById ∧
      c9Updated.importedAt = existing.importedAt ∧
      c9Updated.errorMessage = existing.errorMessage ∧
      (c9Payload.applicant_name = none →
        c9Updated.applicant_name = existing.applicant_name) ∧
      (c9Payload.email = none → c9Updated.email = existing.email) ∧
      (c9Payload.phone = none → c9Updated.phone = existing.phone) ∧
      (c9Payload.category = none → c9Updated.category = existing.category) ∧
      (c9Payload.status = none → c9Updated.status = existing.status) ∧
      (c9Payload.dob = none → c9Updated.dob = existing.dob) ∧
      (c9Payload.priority = none → c9Updated.priority = existing.priority) ∧
      (∀ c ∈ (putCase c9Store "C1" c9Payload (some "u") "admin").1.cases,
        c ∈ c9Store.cases ∨ c = c9Updated) ∧
      (putCase c9Store "C1" c9Payload (some "u") "admin").1.notes = c9Store.notes ∧
      (putCase c9Store "C1" c9Payload (some "u") "admin").1.importLogs =
        c9Store.importLogs) :=
  ⟨by decide,
    (c9_partial_update c9Store "C1" c9Payload (some "u") "admin").1 c9Updated (by decide)⟩

/-! ### C2: cascade delete of an import log (spec-modelled) -/

/-- The ±5 second tolerance window of spec §4.4 on millisecond
timestamps; a case without an import timestamp matches no log. -/
def withinTol (a : Option Nat) (b : Nat) : Bool :=
  match a with
  | some t => max t b - min t b ≤ 5000
  | none => false

/-- Modelled from the spec: the repository's import-log deletion route
(`DELETE /api/import-logs/:id`, invoked by the frontend Reports page) is
absent from the provided backend sources - only its GET sibling exists
in importLogs.js - so `deleteImportLogCascade(logId)` is modelled from
spec §4.4: one transaction deletes all Notes on FAILED cases sharing the
log's timestamp within a ±5s tolerance window, then those Case rows,
then the Import Log itself, returning the deleted-case count, and must
be all-or-nothing; `stepFails i` injects a storage failure into the i-th
of the three delete statements, which aborts the whole transaction with
no change. -/
def deleteImportLogCascade (stepFails : Nat → Bool) (st : Store) (logId : Nat) :
    Store × Option Nat :=
  match st.importLogs.find? (fun l => decide (l.id = logId)) with
  | none => (st, none)
  | some log =>
    if stepFails 0 || stepFails 1 || stepFails 2 then (st, none)
    else
      ({ st with
         notes := st.notes.filter (fun n =>
           !((st.cases.filter (fun c =>
               decide (c.status = "FAILED") && withinTol c.importedAt log.createdAt)).map
             (fun c => c.id)).contains n.caseId),
         cases := st.cases.filter (fun c =>
           !(decide (c.status = "FAILED") && withinTol c.importedAt log.createdAt)),
         importLogs := st.importLogs.filter (fun l => !decide (l.id = logId)) },
       some (st.cases.filter (fun c =>
         decide (c.status = "FAILED") && withinTol c.importedAt log.createdAt)).length)

theorem length_filter_not_add {α : Type} (l : List α) (p : α → Bool) :
    (l.filter (fun a => !(p a))).length + (l.filter p).length = l.length := by
  induction l with
  | nil => rfl
  | cons a rest ih =>
    by_cases hp : p a
    · simp only [List.filter, hp, Bool.not_true]
      simp only [List.length_cons]
      omega
    · rw [Bool.not_eq_true] at hp
      simp only [List.filter, hp, Bool.not_false]
      simp only [List.length_cons]
      omega

/-- C2 (spec-modelled, confirmed): deleting an import log removes exactly
the FAILED cases sharing the log's timestamp (within the tolerance
window), exactly the notes attached to those cases, and exactly that
log, reporting the deleted-case count; any mid-cascade failure leaves the
notes, the cases and the log all unchanged. -/
theorem c2_cascade_delete (stepFails : Nat → Bool) (st : Store) (logId : Nat)
    (log : ImportLog)
    (hlog : st.importLogs.find? (fun l => decide (l.id = logId)) = some log) :
    ((stepFails 0 = false ∧ stepFails 1 = false ∧ stepFails 2 = false) →
      (deleteImportLogCascade stepFails st logId).2 =
        some (st.cases.filter (fun c =>
          decide (c.status = "FAILED") && withinTol c.importedAt log.createdAt)).length ∧
      (∀ c ∈ st.cases,
        (c ∈ (deleteImportLogCascade stepFails st logId).1.cases ↔
          ¬ (c.status = "FAILED" ∧ withinTol c.importedAt log.createdAt = true))) ∧
      (∀ c ∈ (deleteImportLogCascade stepFails st logId).1.cases, c ∈ st.cases) ∧
      (deleteImportLogCascade stepFails st logId).1.cases.length +
        (st.cases.filter (fun c =>
          decide (c.status = "FAILED") && withinTol c.importedAt log.createdAt)).length =
        st.cases.length ∧
      (∀ n ∈ st.notes,
        (n ∈ (deleteImportLogCascade stepFails st logId).1.notes ↔
          ¬ ∃ c ∈ st.cases, c.id = n.caseId ∧ c.status = "FAILED" ∧
            withinTol c.importedAt log.createdAt = true)) ∧
      (∀ n ∈ (deleteImportLogCascade stepFails st logId).1.notes, n ∈ st.notes) ∧
      (∀ l ∈ st.importLogs,
        (l ∈ (deleteImportLogCascade stepFails st logId).1.importLogs ↔ l.id ≠ logId))) ∧
    ((stepFails 0 = true ∨ stepFails 1 = true ∨ stepFails 2 = true) →
      deleteImportLogCascade stepFails st logId = (st, none)) := by
  constructor
  · rintro ⟨h0, h1, h2⟩
    have hcond : (stepFails 0 || stepFails 1 || stepFails 2) = false := by
      rw [h0, h1, h2]
      rfl
    simp only [deleteImportLogCascade, hlog, hcond, Bool.false_eq_true, if_false]
    refine ⟨trivial, ?_, ?_, ?_, ?_, ?_, ?_⟩
    · intro c hc
      simp only [List.mem_filter, hc, true_and, Bool.not_eq_true', Bool.and_eq_false_iff,
        decide_eq_false_iff_not, Bool.not_eq_true]
      constructor
      · intro h hcon
        rcases h with h | h
        · exact h hcon.1
        · rw [hcon.2] at h
          cases h
      · intro h
        by_cases hs : c.status = "FAILED"
        · right
          rcases hw : withinTol c.importedAt log.createdAt with _ | _
          · rfl
          · exact absurd ⟨hs, hw⟩ h
        · exact Or.inl hs
    · intro c hc
      exact (List.mem_filter.1 hc).1
    · exact length_filter_not_add st.cases _
    · intro n hn
      simp only [List.mem_filter, hn, true_and, Bool.not_eq_true',
        List.contains_eq_any_beq]
      rw [Bool.eq_false_iff]
      apply not_congr
      simp only [List.any_eq_true, List.mem_map, List.mem_filter,
        Bool.and_eq_true, decide_eq_true_eq, beq_iff_eq]
      constructor
      · rintro ⟨i, ⟨c, ⟨hcmem, hcs, hcw⟩, hci⟩, hic⟩
        refine ⟨c, hcmem, ?_, hcs, hcw⟩
        rw [hci, hic]
      · rintro ⟨c, hcmem, hcid, hcs, hcw⟩
        exact ⟨c.id, ⟨c, ⟨hcmem, hcs, hcw⟩, rfl⟩, hcid.symm⟩
    · intro n hn
      exact (List.mem_filter.1 hn).1
    · intro l hl
      simp only [List.mem_filter, hl, true_and, Bool.not_eq_true',
        decide_eq_false_iff_not]
  · intro h
    have hcond : (stepFails 0 || stepFails 1 || stepFails 2) = true := by
      rcases h with h | h | h <;> simp [h]
    simp only [deleteImportLogCascade, hlog, hcond, if_true]

/-- Concrete fixtures for the C2 witness: one FAILED case and one
COMPLETED case share the log's timestamp, each carrying a note. -/
def c2Store : Store :=
  { cases := [{ id := 1, case_id := "FAILED-1000-0-0", status := "FAILED",
                importedAt := some 1000, errorMessage := some "boom" },
              { id := 2, case_id := "OK1", status := "COMPLETED",
                importedAt := some 1000 }],
    notes := [{ id := 3, caseId := 1, content := "note on failed" },
              { id := 4, caseId := 2, content := "note on ok" }],
    importLogs := [{ id := 5, userId := "u", totalRows := 2, successCount := 1,
                     failCount := 1, createdAt := 1000 }],
    nextId := 6 }

/-- Witness for C2 on the concrete store: the cascade deletes the one
FAILED case, its note, and the log, and nothing else. -/
theorem c2_cascade_delete_witness :
    c2Store.importLogs.find? (fun l => decide (l.id = 5)) =
      some { id := 5, userId := "u", totalRows := 2, successCount := 1,
             failCount := 1, createdAt := 1000 } ∧
    ((deleteImportLogCascade (fun _ => false) c2Store 5).2 =
        some (c2Store.cases.filter (fun c =>
          decide (c.status = "FAILED") && withinTol c.importedAt 1000)).length ∧
      (∀ c ∈ c2Store.cases,
        (c ∈ (deleteImportLogCascade (fun _ => false) c2Store 5).1.cases ↔
          ¬ (c.status = "FAILED" ∧ withinTol c.importedAt 1000 = true))) ∧
      (∀ c ∈ (deleteImportLogCascade (fun _ => false) c2Store 5).1.cases,
        c ∈ c2Store.cases) ∧
      (deleteImportLogCascade (fun _ => false) c2Store 5).1.cases.length +
        (c2Store.cases.filter (fun c =>
          decide (c.status = "FAILED") && withinTol c.importedAt 1000)).length =
        c2Store.cases.length ∧
      (∀ n ∈ c2Store.notes,
        (n ∈ (deleteImportLogCascade (fun _ => false) c2Store 5).1.notes ↔
          ¬ ∃ c ∈ c2Store.cases, c.id = n.caseId ∧ c.status = "FAILED" ∧
            withinTol c.importedAt 1000 = true)) ∧
      (∀ n ∈ (deleteImportLogCascade (fun _ => false) c2Store 5).1.notes,
        n ∈ c2Store.notes) ∧
      (∀ l ∈ c2Store.importLogs,
        (l ∈ (deleteImportLogCascade (fun _ => false) c2Store 5).1.importLogs ↔
          l.id ≠ 5))) :=
  ⟨by decide,
    (c2_cascade_delete (fun _ => false) c2Store 5
      { id := 5, userId := "u", totalRows := 2, successCount := 1,
        failCount := 1, createdAt := 1000 } (by decide)).1 ⟨rfl, rfl, rfl⟩⟩

end Caseflow
